import Mathlib

/-!
Verification of the xhark interactive OpenAPI client against its
natural-language specification.

Strings are modelled as `List Char` (`Str`); Go maps with string keys are
modelled as association lists with unique keys, written to only through
`mset`/`mdel` which preserve uniqueness (Go map assignment replaces the
existing entry, deletion removes it).  Go's `strings.ToLower` /
`strings.TrimSpace` / `strings.EqualFold` are modelled on the ASCII range,
which is the range the byte-wise matching loop of `fuzzy.go` operates on.
-/

namespace Xhark

abbrev Str := List Char

/-- Helper to write `Str` literals. -/
def str (s : String) : Str := s.toList

/-- ASCII lowering of one character, as `strings.ToLower` acts on ASCII. -/
def lowerChar (c : Char) : Char :=
  if 'A' ≤ c ∧ c ≤ 'Z' then Char.ofNat (c.toNat + 32) else c

/-- Model of `strings.ToLower`. -/
def strToLower (s : Str) : Str := s.map lowerChar

/-- ASCII uppering of one character, as `strings.ToUpper` acts on ASCII. -/
def upperChar (c : Char) : Char :=
  if 'a' ≤ c ∧ c ≤ 'z' then Char.ofNat (c.toNat - 32) else c

/-- Model of `strings.ToUpper`. -/
def strToUpper (s : Str) : Str := s.map upperChar

/-- ASCII whitespace, as recognised by `unicode.IsSpace` on the ASCII range
(`strings.TrimSpace` trims these). -/
def isSpaceChar (c : Char) : Bool :=
  c = ' ' || c = '\t' || c = '\n' || c = '\x0b' || c = '\x0c' || c = '\r'

/-- Model of `strings.TrimSpace`. -/
def trimSpace (s : Str) : Str :=
  ((s.dropWhile isSpaceChar).reverse.dropWhile isSpaceChar).reverse

/-- Model of `strings.TrimRight(s, "/")`. -/
def trimRightSlash (s : Str) : Str :=
  (s.reverse.dropWhile (fun c => c = '/')).reverse

/-! ## Go maps with string keys -/

/-- A Go `map[string]string`, as an association list with unique keys. -/
abbrev Smap := List (Str × Str)

/-- Lookup: `m[k]` together with the `ok` flag (`none` = key absent). -/
def mget (m : List (Str × α)) (k : Str) : Option α :=
  match m with
  | [] => none
  | (k', v) :: rest => if k' = k then some v else mget rest k

/-- Go's `m[k]` for `map[string]string`: the zero value `""` when absent. -/
def mgetD (m : Smap) (k : Str) : Str := (mget m k).getD []

/-- Go map assignment `m[k] = v`: replaces the existing entry, else appends. -/
def mset (m : List (Str × α)) (k : Str) (v : α) : List (Str × α) :=
  match m with
  | [] => [(k, v)]
  | (k', v') :: rest => if k' = k then (k, v) :: rest else (k', v') :: mset rest k v

/-- Go `delete(m, k)`. -/
def mdel (m : List (Str × α)) (k : Str) : List (Str × α) :=
  m.filter (fun e => decide (e.1 ≠ k))

/-! ## internal/ui/fuzzy.go -/

/-- The scan loop of `fuzzyMatchScore`: walks the (lowercased) haystack with
running index `i`, consuming needle characters greedily; returns the
accumulated score and the unconsumed part of the needle. -/
def fmLoop : Str → Str → Nat → Nat × Str
  | _, [], _ => (0, [])
  | [], need, _ => (0, need)
  | h :: hs, n :: ns, i =>
    if h = n then
      let r := fmLoop hs ns (i + 1)
      (i + r.1, r.2)
    else
      fmLoop hs (n :: ns) (i + 1)

/-- The `fuzzyMatchScore(needle, haystack)` from `internal/ui/fuzzy.go`:
case-insensitive subsequence match, score = sum of matched haystack
indices, `(0, false)` when the needle is not exhausted. -/
def fuzzyMatchScore (needle haystack : Str) : Nat × Bool :=
  let needle' := strToLower needle
  let haystack' := strToLower haystack
  if needle' = [] then (0, true)
  else
    let r := fmLoop haystack' needle' 0
    if r.2 = [] then (r.1, true) else (0, false)

/-- Specification-side greedy leftmost matching: the list of 0-based haystack
indices at which each needle character is matched, scanning left to right,
`none` when the needle is not a subsequence. -/
def greedyIndices : Str → Str → Nat → Option (List Nat)
  | [], _, _ => some []
  | _ :: _, [], _ => none
  | n :: ns, h :: hs, i =>
    if h = n then (greedyIndices ns hs (i + 1)).map (fun l => i :: l)
    else greedyIndices (n :: ns) hs (i + 1)

theorem fmLoop_nil_needle (hay : Str) (i : Nat) : fmLoop hay [] i = (0, []) := by
  cases hay <;> rfl

theorem fmLoop_cons_eq {h n : Char} (hs ns : Str) (i : Nat) (hEq : h = n) :
    fmLoop (h :: hs) (n :: ns) i
      = (i + (fmLoop hs ns (i + 1)).1, (fmLoop hs ns (i + 1)).2) := by
  simp [fmLoop, hEq]

theorem fmLoop_cons_ne {h n : Char} (hs ns : Str) (i : Nat) (hEq : ¬h = n) :
    fmLoop (h :: hs) (n :: ns) i = fmLoop hs (n :: ns) (i + 1) := by
  simp [fmLoop, hEq]

theorem greedy_cons_eq {h n : Char} (hs ns : Str) (i : Nat) (hEq : h = n) :
    greedyIndices (n :: ns) (h :: hs) i
      = (greedyIndices ns hs (i + 1)).map (fun l => i :: l) := by
  simp [greedyIndices, hEq]

theorem greedy_cons_ne {h n : Char} (hs ns : Str) (i : Nat) (hEq : ¬h = n) :
    greedyIndices (n :: ns) (h :: hs) i = greedyIndices (n :: ns) hs (i + 1) := by
  simp [greedyIndices, hEq]

theorem fmLoop_snd_nil_iff : ∀ (hay need : Str) (i : Nat),
    (fmLoop hay need i).2 = [] ↔ need.Sublist hay := by
  intro hay
  induction hay with
  | nil =>
    intro need i
    cases need with
    | nil => simp [fmLoop]
    | cons n ns => simp [fmLoop]
  | cons h hs ih =>
    intro need i
    cases need with
    | nil => simp [fmLoop]
    | cons n ns =>
      by_cases hEq : h = n
      · rw [fmLoop_cons_eq hs ns i hEq]
        subst hEq
        rw [show (i + (fmLoop hs ns (i + 1)).1, (fmLoop hs ns (i + 1)).2).2
            = (fmLoop hs ns (i + 1)).2 from rfl]
        rw [ih ns (i + 1)]
        exact (List.cons_sublist_cons).symm
      · rw [fmLoop_cons_ne hs ns i hEq]
        rw [ih (n :: ns) (i + 1)]
        constructor
        · exact fun hsub => hsub.cons h
        · intro hsub
          cases hsub with
          | cons _ htail => exact htail
          | cons₂ _ _ => exact absurd rfl hEq

theorem greedyIndices_fmLoop : ∀ (hay need : Str) (i : Nat) (l : List Nat),
    greedyIndices need hay i = some l → fmLoop hay need i = (l.sum, []) := by
  intro hay
  induction hay with
  | nil =>
    intro need i l hg
    cases need with
    | nil =>
      simp only [greedyIndices, Option.some.injEq] at hg
      subst hg
      rfl
    | cons n ns => simp [greedyIndices] at hg
  | cons h hs ih =>
    intro need i l hg
    cases need with
    | nil =>
      simp only [greedyIndices, Option.some.injEq] at hg
      subst hg
      rfl
    | cons n ns =>
      by_cases hEq : h = n
      · rw [greedy_cons_eq hs ns i hEq] at hg
        cases hgi : greedyIndices ns hs (i + 1) with
        | none => rw [hgi] at hg; simp at hg
        | some l' =>
          rw [hgi] at hg
          simp only [Option.map, Option.some.injEq] at hg
          subst hg
          have hrec := ih ns (i + 1) l' hgi
          rw [fmLoop_cons_eq hs ns i hEq, hrec]
          simp [Nat.add_comm]
      · rw [greedy_cons_ne hs ns i hEq] at hg
        rw [fmLoop_cons_ne hs ns i hEq]
        exact ih (n :: ns) (i + 1) l hg

/-- C1. `fuzzyMatchScore` performs case-insensitive subsequence matching:
it matches exactly when every character of the lowercased needle appears in
order in the lowercased haystack; on a match the score is the sum of the
0-based haystack indices chosen by greedy leftmost matching; an empty
needle always yields `(0, true)`. -/
theorem fuzzyMatchScore_correct (needle haystack : Str) :
    ((fuzzyMatchScore needle haystack).2 = true ↔
        (strToLower needle).Sublist (strToLower haystack))
    ∧ (∀ idxs, greedyIndices (strToLower needle) (strToLower haystack) 0 = some idxs →
        fuzzyMatchScore needle haystack = (idxs.sum, true))
    ∧ fuzzyMatchScore [] haystack = (0, true) := by
  refine ⟨?_, ?_, ?_⟩
  · unfold fuzzyMatchScore
    by_cases hn : strToLower needle = []
    · simp [hn]
    · simp only [hn, if_neg hn]
      by_cases hm : (fmLoop (strToLower haystack) (strToLower needle) 0).2 = []
      · simp only [hm, if_pos rfl]
        simpa [hm] using (fmLoop_snd_nil_iff (strToLower haystack) (strToLower needle) 0)
      · simp only [hm, if_neg hm]
        rw [← fmLoop_snd_nil_iff (strToLower haystack) (strToLower needle) 0]
        simp [hm]
  · intro idxs hg
    have hrun := greedyIndices_fmLoop (strToLower haystack) (strToLower needle) 0 idxs hg
    by_cases hn : strToLower needle = []
    · rw [hn] at hg
      simp only [greedyIndices, Option.some.injEq] at hg
      subst hg
      simp [fuzzyMatchScore, hn]
    · simp [fuzzyMatchScore, hn, hrun]
  · simp [fuzzyMatchScore, strToLower]

/-- Witness for C1, exercising the score clause at a concrete input:
needle `"GU"` against haystack `"Get user"` matches greedily at indices
0 and 4, so the score is 4. -/
theorem fuzzyMatchScore_correct_witness :
    fuzzyMatchScore (str (r"GU")) (str (r"Get user")) = (4, true) := by
  have h := (fuzzyMatchScore_correct (str (r"GU")) (str (r"Get user"))).2.1 [0, 4]
    (by decide)
  simpa using h

/-! ## internal/model (model.go plus the security extensions) -/

inductive ParamType where
  | string
  | integer
  | number
  | boolean
  | unknown
deriving DecidableEq, Inhabited

structure Param where
  name : Str
  /-- the Go field `In` (`In` is modelled as its string value "path"/"query") -/
  location : Str
  required : Bool
  type : ParamType
  description : Str
  /-- the Go field `Example` -/
  exampleVal : Str
  enum : List Str
  /-- the Go field `Default` -/
  defaultVal : Str
deriving DecidableEq, Inhabited

structure BodyField where
  name : Str
  required : Bool
  type : ParamType
  description : Str
  exampleVal : Str
  enum : List Str
  defaultVal : Str
deriving DecidableEq, Inhabited

structure BodySchema where
  supported : Bool
  fields : List BodyField
deriving DecidableEq, Inhabited

structure SecurityScheme where
  name : Str
  type : Str
  description : Str
  scheme : Str
  bearerFormat : Str
  tokenURL : Str
  scopes : Smap
deriving DecidableEq, Inhabited

/-- A Go `model.SecurityRequirement` (`map[string][]string`, scheme name to
required scopes), as an association list in the map's iteration order. -/
abbrev SecurityRequirement := List (Str × List Str)

structure Endpoint where
  method : Str
  path : Str
  summary : Str
  operationID : Str
  pathParams : List Param
  queryParams : List Param
  body : Option BodySchema
  security : List SecurityRequirement
deriving DecidableEq, Inhabited

/-- The `firstNonEmpty` from app.go: `a` if it is non-blank, else `b`. -/
def firstNonEmpty (a b : Str) : Str :=
  if trimSpace a ≠ [] then a else b

/-! ## recomputeFilter (app.go) -/

structure scoredIdx where
  idx : Nat
  score : Nat
deriving DecidableEq, Inhabited

/-- The comparator of `sort.Slice` in `recomputeFilter`, as a (total,
reflexive) order: ascending score, ties by ascending index.  `sort.Slice`
is unstable, but this comparator is a strict total order on the entries
(indices are distinct), so the sorted result is the unique sorted
permutation, which `List.insertionSort` on the reflexive closure also
computes. -/
def scoredLE (a b : scoredIdx) : Prop :=
  a.score < b.score ∨ (a.score = b.score ∧ a.idx ≤ b.idx)

instance : DecidableRel scoredLE := fun a b =>
  decidable_of_iff (a.score < b.score ∨ (a.score = b.score ∧ a.idx ≤ b.idx)) Iff.rfl

instance : IsTotal scoredIdx scoredLE :=
  ⟨fun a b => by
    unfold scoredLE
    rcases Nat.lt_trichotomy a.score b.score with h | h | h
    · exact Or.inl (Or.inl h)
    · rcases Nat.le_total a.idx b.idx with h' | h'
      · exact Or.inl (Or.inr ⟨h, h'⟩)
      · exact Or.inr (Or.inr ⟨h.symm, h'⟩)
    · exact Or.inr (Or.inl h)⟩

instance : IsTrans scoredIdx scoredLE :=
  ⟨fun a b c hab hbc => by
    unfold scoredLE at *
    rcases hab with h | ⟨h, h'⟩ <;> rcases hbc with g | ⟨g, g'⟩
    · exact Or.inl (h.trans g)
    · exact Or.inl (g ▸ h)
    · exact Or.inl (h ▸ g)
    · exact Or.inr ⟨h.trans g, h'.trans g'⟩⟩

/-- The candidate label built in `recomputeFilter`:
`strings.ToLower(ep.Method + " " + ep.Path + " " + firstNonEmpty(ep.Summary, ep.OperationID))`. -/
def candidateLabel (ep : Endpoint) : Str :=
  strToLower (ep.method ++ [' '] ++ ep.path ++ [' '] ++ firstNonEmpty ep.summary ep.operationID)

/-- The scoring loop of `recomputeFilter`: collects `scoredIdx` entries for
the endpoints (numbered from `k`) whose candidate label matches. -/
def buildScored (needle : Str) : List Endpoint → Nat → List scoredIdx
  | [], _ => []
  | ep :: rest, k =>
    let r := fuzzyMatchScore needle (candidateLabel ep)
    if r.2 then ⟨k, r.1⟩ :: buildScored needle rest (k + 1)
    else buildScored needle rest (k + 1)

/-- The `recomputeFilter` from app.go, as the computation of the new `filtered`
index list: blank filter keeps every index in catalog order; otherwise the
matching indices sorted by the `sort.Slice` comparator. -/
def recomputeFilter (endpoints : List Endpoint) (filter : Str) : List Nat :=
  let needle := trimSpace filter
  if needle = [] then List.range endpoints.length
  else (List.insertionSort scoredLE (buildScored needle endpoints 0)).map scoredIdx.idx

/-- The fuzzy result of the filter needle against endpoint `i` of the
catalog (specification-side shorthand). -/
def matchScoreAt (eps : List Endpoint) (needle : Str) (i : Nat) : Nat × Bool :=
  fuzzyMatchScore needle (candidateLabel (eps.getD i default))

theorem mem_buildScored (needle : Str) : ∀ (eps : List Endpoint) (k : Nat) (s : scoredIdx),
    s ∈ buildScored needle eps k ↔
      ∃ j, j < eps.length
        ∧ (fuzzyMatchScore needle (candidateLabel (eps.getD j default))).2 = true
        ∧ s = ⟨k + j, (fuzzyMatchScore needle (candidateLabel (eps.getD j default))).1⟩ := by
  intro eps
  induction eps with
  | nil =>
    intro k s
    simp [buildScored]
  | cons ep rest ih =>
    intro k s
    constructor
    · intro hmem
      unfold buildScored at hmem
      by_cases hm : (fuzzyMatchScore needle (candidateLabel ep)).2 = true
      · rw [if_pos hm] at hmem
        rcases List.mem_cons.mp hmem with hhead | htail
        · exact ⟨0, by simp, by simpa using hm, by simpa using hhead⟩
        · obtain ⟨j, hj, hmt, hs⟩ := (ih (k + 1) s).mp htail
          refine ⟨j + 1, by simpa using Nat.succ_lt_succ hj, by simpa using hmt, ?_⟩
          rw [hs]
          simp [Nat.add_assoc, Nat.add_comm 1 j]
      · rw [if_neg (by simpa using hm)] at hmem
        obtain ⟨j, hj, hmt, hs⟩ := (ih (k + 1) s).mp hmem
        refine ⟨j + 1, by simpa using Nat.succ_lt_succ hj, by simpa using hmt, ?_⟩
        rw [hs]
        simp [Nat.add_assoc, Nat.add_comm 1 j]
    · rintro ⟨j, hj, hmt, hs⟩
      unfold buildScored
      cases j with
      | zero =>
        simp only [List.getD_cons_zero] at hmt hs
        rw [if_pos hmt]
        exact List.mem_cons.mpr (Or.inl (by simpa using hs))
      | succ j' =>
        have hj' : j' < rest.length := Nat.lt_of_succ_lt_succ hj
        have hget : (ep :: rest).getD (j' + 1) default = rest.getD j' default := by
          simp
        rw [hget] at hmt hs
        have htail : s ∈ buildScored needle rest (k + 1) :=
          (ih (k + 1) s).mpr ⟨j', hj', hmt, by rw [hs]; simp [Nat.add_assoc, Nat.add_comm 1 j']⟩
        by_cases hm : (fuzzyMatchScore needle (candidateLabel ep)).2 = true
        · rw [if_pos hm]
          exact List.mem_cons.mpr (Or.inr htail)
        · rw [if_neg (by simpa using hm)]
          exact htail

theorem buildScored_idx_lb (needle : Str) : ∀ (eps : List Endpoint) (k : Nat) (s : scoredIdx),
    s ∈ buildScored needle eps k → k ≤ s.idx := by
  intro eps k s hmem
  obtain ⟨j, _, _, hs⟩ := (mem_buildScored needle eps k s).mp hmem
  rw [hs]
  exact Nat.le_add_right k j

theorem buildScored_idx_pairwise (needle : Str) : ∀ (eps : List Endpoint) (k : Nat),
    (buildScored needle eps k).Pairwise (fun a b => a.idx < b.idx) := by
  intro eps
  induction eps with
  | nil => intro k; simp [buildScored]
  | cons ep rest ih =>
    intro k
    unfold buildScored
    by_cases hm : (fuzzyMatchScore needle (candidateLabel ep)).2 = true
    · rw [if_pos hm]
      refine List.Pairwise.cons ?_ (ih (k + 1))
      intro b hb
      have := buildScored_idx_lb needle rest (k + 1) b hb
      show k < b.idx
      omega
    · rw [if_neg (by simpa using hm)]
      exact ih (k + 1)

/-- C2.  For a filter that is non-blank after trimming, `recomputeFilter`
returns exactly the indices of catalog endpoints whose candidate label
fuzzy-matches the trimmed filter, arranged in strictly increasing
(score, index) lexicographic order: ascending fuzzy score, ties broken by
ascending original catalog index. -/
theorem recomputeFilter_spec (eps : List Endpoint) (filter : Str)
    (hne : trimSpace filter ≠ []) :
    (∀ i, i ∈ recomputeFilter eps filter ↔
        i < eps.length ∧ (matchScoreAt eps (trimSpace filter) i).2 = true)
    ∧ (recomputeFilter eps filter).Pairwise (fun i j =>
        (matchScoreAt eps (trimSpace filter) i).1 < (matchScoreAt eps (trimSpace filter) j).1
        ∨ ((matchScoreAt eps (trimSpace filter) i).1 = (matchScoreAt eps (trimSpace filter) j).1
            ∧ i < j)) := by
  have hperm : List.Perm
      (List.insertionSort scoredLE (buildScored (trimSpace filter) eps 0))
      (buildScored (trimSpace filter) eps 0) :=
    List.perm_insertionSort scoredLE _
  have hrw : recomputeFilter eps filter
      = (List.insertionSort scoredLE (buildScored (trimSpace filter) eps 0)).map scoredIdx.idx := by
    unfold recomputeFilter
    rw [if_neg hne]
  have hchar : ∀ s, s ∈ List.insertionSort scoredLE (buildScored (trimSpace filter) eps 0) →
      s.idx < eps.length ∧ (matchScoreAt eps (trimSpace filter) s.idx).2 = true
        ∧ s.score = (matchScoreAt eps (trimSpace filter) s.idx).1 := by
    intro s hs
    obtain ⟨j, hj, hmt, hform⟩ :=
      (mem_buildScored (trimSpace filter) eps 0 s).mp (hperm.mem_iff.mp hs)
    rw [hform]
    simp only [Nat.zero_add]
    exact ⟨hj, hmt, rfl⟩
  constructor
  · intro i
    rw [hrw, List.mem_map]
    constructor
    · rintro ⟨s, hs, hsi⟩
      have := hchar s hs
      rw [← hsi]
      exact ⟨this.1, this.2.1⟩
    · rintro ⟨hi, hm⟩
      refine ⟨⟨i, (matchScoreAt eps (trimSpace filter) i).1⟩, ?_, rfl⟩
      rw [hperm.mem_iff]
      exact (mem_buildScored (trimSpace filter) eps 0 _).mpr
        ⟨i, hi, hm, by simp [matchScoreAt]⟩
  · rw [hrw, List.pairwise_map]
    have hsorted : (List.insertionSort scoredLE
        (buildScored (trimSpace filter) eps 0)).Pairwise scoredLE :=
      List.sorted_insertionSort scoredLE _
    have hne' : (List.insertionSort scoredLE
        (buildScored (trimSpace filter) eps 0)).Pairwise (fun a b => a.idx ≠ b.idx) := by
      rw [List.Perm.pairwise_iff (fun h => Ne.symm h) hperm]
      exact (buildScored_idx_pairwise (trimSpace filter) eps 0).imp (fun h => Nat.ne_of_lt h)
    refine (hsorted.and hne').imp_of_mem ?_
    intro a b ha hb hab
    obtain ⟨hle, hne''⟩ := hab
    obtain ⟨_, _, hsa⟩ := hchar a ha
    obtain ⟨_, _, hsb⟩ := hchar b hb
    rcases hle with h | ⟨h, h'⟩
    · exact Or.inl (by rw [← hsa, ← hsb]; exact h)
    · exact Or.inr ⟨by rw [← hsa, ← hsb]; exact h, lt_of_le_of_ne h' hne''⟩

/-- The character `{` (written via its code point, `0x7b`). -/
def lbrace : Char := Char.ofNat 123

/-- The character `}` (written via its code point, `0x7d`). -/
def rbrace : Char := Char.ofNat 125

/-- The two-endpoint catalog of the specification's example scenario. -/
def exampleCatalog : List Endpoint :=
  [{ method := str (r"GET"), path := str (r"/users/") ++ lbrace :: str (r"id") ++ [rbrace],
     summary := str (r"Get user"),
     operationID := [], pathParams := [], queryParams := [], body := none, security := [] },
   { method := str (r"POST"), path := str (r"/users"), summary := str (r"Create user"),
     operationID := [], pathParams := [], queryParams := [], body := none, security := [] }]

/-- Witness for C2 at the specification's example: filter `"get u"` keeps
exactly endpoint 0 (`GET /users/{id}`, summary "Get user"). -/
theorem recomputeFilter_spec_witness :
    trimSpace (str (r"get u")) ≠ []
    ∧ ((0 ∈ recomputeFilter exampleCatalog (str (r"get u")) ↔
        0 < exampleCatalog.length
        ∧ (matchScoreAt exampleCatalog (trimSpace (str (r"get u"))) 0).2 = true)
      ∧ (1 ∈ recomputeFilter exampleCatalog (str (r"get u")) ↔
        1 < exampleCatalog.length
        ∧ (matchScoreAt exampleCatalog (trimSpace (str (r"get u"))) 1).2 = true)) :=
  ⟨by decide,
    (recomputeFilter_spec exampleCatalog (str (r"get u")) (by decide)).1 0,
    (recomputeFilter_spec exampleCatalog (str (r"get u")) (by decide)).1 1⟩

/-! ## Credential store (authState, authHeadersForEndpoint from app.go) -/

structure AuthState where
  schemeName : Str
  token : Str
  tokenType : Str
  /-- The `time.Time` modelled as an abstract tick count -/
  acquiredAt : Nat
deriving DecidableEq, Inhabited

theorem mset_mset (m : List (Str × α)) (k : Str) (v w : α) :
    mset (mset m k v) k w = mset m k w := by
  induction m with
  | nil => simp [mset]
  | cons e rest ih =>
    by_cases hk : e.1 = k
    · simp [mset, hk]
    · simp [mset, hk, ih]

theorem mget_mset_self (m : List (Str × α)) (k : Str) (v : α) :
    mget (mset m k v) k = some v := by
  induction m with
  | nil => simp [mset, mget]
  | cons e rest ih =>
    by_cases hk : e.1 = k
    · simp [mset, hk, mget]
    · simp [mset, hk, mget, ih]

theorem mget_mset_ne (m : List (Str × α)) (k k' : Str) (v : α) (hk : k ≠ k') :
    mget (mset m k v) k' = mget m k' := by
  induction m with
  | nil => simp [mset, mget, hk]
  | cons e rest ih =>
    by_cases he : e.1 = k
    · simp [mset, he, mget, hk]
    · simp only [mset, if_neg he, mget]
      by_cases he' : e.1 = k'
      · simp [he']
      · simp [he', ih]

theorem mget_mdel_self (m : List (Str × α)) (k : Str) :
    mget (mdel m k) k = none := by
  induction m with
  | nil => simp [mdel, mget]
  | cons e rest ih =>
    by_cases hk : e.1 = k
    · simpa [mdel, hk] using ih
    · simpa [mdel, List.filter, hk, mget] using ih

theorem mget_mdel_ne (m : List (Str × α)) (k k' : Str) (hk : k ≠ k') :
    mget (mdel m k) k' = mget m k' := by
  induction m with
  | nil => simp [mdel, mget]
  | cons e rest ih =>
    by_cases he : e.1 = k
    · rw [show mdel (e :: rest) k = mdel rest k by simp [mdel, List.filter, he]]
      rw [ih]
      rw [show mget (e :: rest) k' = mget rest k' by simp [mget, he ▸ hk]]
    · rw [show mdel (e :: rest) k = e :: mdel rest k by simp [mdel, List.filter, he]]
      by_cases he' : e.1 = k'
      · simp [mget, he']
      · simp [mget, he', ih]

theorem mdel_mdel (m : List (Str × α)) (k : Str) :
    mdel (mdel m k) k = mdel m k := by
  induction m with
  | nil => rfl
  | cons e rest ih =>
    by_cases hk : e.1 = k
    · simp [mdel, List.filter, hk]
    · simp [mdel, List.filter, hk]

/-- The `Authorization` header value written for one satisfied scheme:
`strings.TrimSpace(st.tokenType) + " " + strings.TrimSpace(st.token)`. -/
def authValue (st : AuthState) : Str :=
  trimSpace st.tokenType ++ [' '] ++ trimSpace st.token

/-- Inner loop of `authHeadersForEndpoint` over one security requirement:
every member scheme must have a stored credential with a non-blank token,
each writing the single `Authorization` key; `none` on the first failure. -/
def tryRequirement (store : List (Str × AuthState)) :
    SecurityRequirement → Smap → Option Smap
  | [], acc => some acc
  | (schemeName, _) :: rest, acc =>
    match mget store schemeName with
    | none => none
    | some st =>
      if trimSpace st.token = [] then none
      else tryRequirement store rest (mset acc (str (r"Authorization")) (authValue st))

/-- Outer loop of `authHeadersForEndpoint`: first satisfied requirement wins. -/
def authHeadersLoop (store : List (Str × AuthState)) :
    List SecurityRequirement → Option Smap
  | [] => none
  | req :: rest =>
    match tryRequirement store req [] with
    | some h => some h
    | none => authHeadersLoop store rest

/-- The `authHeadersForEndpoint` from app.go.  `none` models the Go `nil` map. -/
def authHeadersForEndpoint (store : List (Str × AuthState)) (ep : Endpoint) : Option Smap :=
  if ep.security = [] then none
  else authHeadersLoop store ep.security

/-- Specification-side satisfaction of one security requirement: every member
scheme has a stored credential whose token is non-blank. -/
def reqSatisfied (store : List (Str × AuthState)) (req : SecurityRequirement) : Bool :=
  req.all (fun e =>
    match mget store e.1 with
    | none => false
    | some st => !(trimSpace st.token).isEmpty)

/-- Specification-side headers of one satisfied requirement: a single
`Authorization` entry carrying the value of the requirement's **last**
member scheme (every member writes the same key, so the last write wins);
an empty requirement yields an empty header map. -/
def specHeaders (store : List (Str × AuthState)) (req : SecurityRequirement) : Smap :=
  match req.getLast? with
  | none => []
  | some e =>
    match mget store e.1 with
    | none => []
    | some st => [(str (r"Authorization"), authValue st)]

theorem tryRequirement_cons (store : List (Str × AuthState)) (s : Str)
    (scopes : List Str) (rest : SecurityRequirement) (acc : Smap) :
    tryRequirement store ((s, scopes) :: rest) acc
      = match mget store s with
        | none => none
        | some st =>
          if trimSpace st.token = [] then none
          else tryRequirement store rest (mset acc (str (r"Authorization")) (authValue st)) :=
  rfl

theorem authHeadersLoop_cons (store : List (Str × AuthState))
    (req : SecurityRequirement) (rest : List SecurityRequirement) :
    authHeadersLoop store (req :: rest)
      = match tryRequirement store req [] with
        | some h => some h
        | none => authHeadersLoop store rest :=
  rfl

theorem tryRequirement_none_of_unsat (store : List (Str × AuthState)) :
    ∀ (req : SecurityRequirement) (acc : Smap), reqSatisfied store req = false →
      tryRequirement store req acc = none := by
  intro req
  induction req with
  | nil => intro acc h; simp [reqSatisfied] at h
  | cons e rest ih =>
    intro acc h
    obtain ⟨s, scopes⟩ := e
    rw [tryRequirement_cons]
    cases hget : mget store s with
    | none => rfl
    | some st =>
      show (if trimSpace st.token = [] then none
          else tryRequirement store rest
            (mset acc (str (r"Authorization")) (authValue st))) = none
      by_cases ht : trimSpace st.token = []
      · simp [ht]
      · rw [if_neg ht]
        apply ih
        rw [show reqSatisfied store ((s, scopes) :: rest)
            = ((match mget store s with
                | none => false
                | some st => !(trimSpace st.token).isEmpty)
              && reqSatisfied store rest) from rfl, hget] at h
        have hne : (trimSpace st.token).isEmpty = false := by
          simp [List.isEmpty_iff, ht]
        simpa [hne] using h

theorem tryRequirement_some_of_sat (store : List (Str × AuthState)) :
    ∀ (req : SecurityRequirement) (acc : Smap), reqSatisfied store req = true →
      tryRequirement store req acc = some
        (match req.getLast? with
          | none => acc
          | some e => mset acc (str (r"Authorization"))
              (authValue ((mget store e.1).getD default))) := by
  intro req
  induction req with
  | nil => intro acc _; rfl
  | cons e rest ih =>
    intro acc h
    obtain ⟨s, scopes⟩ := e
    simp only [reqSatisfied, List.all_cons, Bool.and_eq_true] at h
    obtain ⟨hhead, htail⟩ := h
    cases hget : mget store s with
    | none => rw [hget] at hhead; simp at hhead
    | some st =>
      rw [hget] at hhead
      have ht : ¬trimSpace st.token = [] := by
        simpa [List.isEmpty_iff] using hhead
      rw [tryRequirement_cons, hget]
      simp only [if_neg ht]
      rw [ih _ htail]
      cases rest with
      | nil => simp [hget]
      | cons e' rest' =>
        have hlast : ((s, scopes) :: e' :: rest').getLast? = (e' :: rest').getLast? := by
          simp [List.getLast?_cons_cons]
        rw [hlast]
        cases hl : (e' :: rest').getLast? with
        | none => simp at hl
        | some elast => simp [mset_mset]

theorem authHeadersLoop_none_iff (store : List (Str × AuthState)) :
    ∀ secs : List SecurityRequirement,
      authHeadersLoop store secs = none ↔ ∀ req ∈ secs, reqSatisfied store req = false := by
  intro secs
  induction secs with
  | nil => simp [authHeadersLoop]
  | cons req rest ih =>
    rw [authHeadersLoop_cons]
    by_cases hs : reqSatisfied store req = true
    · rw [tryRequirement_some_of_sat store req [] hs]
      simp only [List.mem_cons]
      constructor
      · intro h; exact absurd h (by simp)
      · intro h
        have := h req (Or.inl rfl)
        rw [hs] at this
        cases this
    · have hs' : reqSatisfied store req = false := by
        cases hb : reqSatisfied store req
        · rfl
        · exact absurd hb hs
      rw [tryRequirement_none_of_unsat store req [] hs']
      simp only [List.mem_cons]
      rw [ih]
      constructor
      · intro h r hr
        rcases hr with rfl | hr
        · exact hs'
        · exact h r hr
      · intro h r hr
        exact h r (Or.inr hr)

theorem authHeadersLoop_first_sat (store : List (Str × AuthState)) :
    ∀ (pre : List SecurityRequirement) (req : SecurityRequirement)
      (rest : List SecurityRequirement),
      (∀ r ∈ pre, reqSatisfied store r = false) → reqSatisfied store req = true →
      authHeadersLoop store (pre ++ req :: rest) = some (specHeaders store req) := by
  intro pre
  induction pre with
  | nil =>
    intro req rest _ hsat
    rw [List.nil_append, authHeadersLoop_cons,
      tryRequirement_some_of_sat store req [] hsat]
    unfold specHeaders
    cases hl : req.getLast? with
    | none => simp
    | some e =>
      cases hget : mget store e.1 with
      | none =>
        exfalso
        have hmem : e ∈ req := List.mem_of_mem_getLast? hl
        have := List.all_eq_true.mp hsat e hmem
        rw [hget] at this
        simp at this
      | some st => simp [mset, hget]
  | cons r pre' ih =>
    intro req rest hpre hsat
    have hr : reqSatisfied store r = false := hpre r (List.mem_cons_self r pre')
    rw [show (r :: pre') ++ req :: rest = r :: (pre' ++ req :: rest) from rfl]
    rw [authHeadersLoop_cons, tryRequirement_none_of_unsat store r [] hr]
    exact ih req rest (fun x hx => hpre x (List.mem_cons_of_mem r hx)) hsat

/-- C3.  `authHeadersForEndpoint` returns `nil` when the endpoint declares no
security requirements; otherwise it returns `nil` exactly when no
requirement is fully satisfied (every member scheme stored with a non-blank
token), and for the first fully satisfied requirement it returns a
single-entry map `Authorization ↦ "<type> <token>"` built from that
requirement's schemes, the last member scheme's header winning. -/
theorem authHeadersForEndpoint_spec (store : List (Str × AuthState)) (ep : Endpoint) :
    (ep.security = [] → authHeadersForEndpoint store ep = none)
    ∧ (authHeadersForEndpoint store ep = none ↔
        ∀ req ∈ ep.security, reqSatisfied store req = false)
    ∧ (∀ pre req rest, ep.security = pre ++ req :: rest →
        (∀ r ∈ pre, reqSatisfied store r = false) → reqSatisfied store req = true →
        authHeadersForEndpoint store ep = some (specHeaders store req)) := by
  refine ⟨?_, ?_, ?_⟩
  · intro h
    simp [authHeadersForEndpoint, h]
  · by_cases h : ep.security = []
    · simp [authHeadersForEndpoint, h]
    · rw [show authHeadersForEndpoint store ep = authHeadersLoop store ep.security by
        simp [authHeadersForEndpoint, h]]
      exact authHeadersLoop_none_iff store ep.security
  · intro pre req rest hsec hpre hsat
    have hne : ep.security ≠ [] := by
      rw [hsec]
      exact List.append_ne_nil_of_right_ne_nil pre (by simp)
    rw [show authHeadersForEndpoint store ep = authHeadersLoop store ep.security by
      simp [authHeadersForEndpoint, hne]]
    rw [hsec]
    exact authHeadersLoop_first_sat store pre req rest hpre hsat

/-- The credential store of the specification's example: scheme `bearerAuth`
stored with token `"abc"` and type `"Bearer"`. -/
def exampleStore : List (Str × AuthState) :=
  [(str (r"bearerAuth"),
    { schemeName := str (r"bearerAuth"), token := str (r"abc"),
      tokenType := str (r"Bearer"), acquiredAt := 0 })]

/-- An endpoint requiring exactly `{bearerAuth: []}`. -/
def exampleAuthEndpoint : Endpoint :=
  { method := str (r"GET"), path := str (r"/secure"), summary := [], operationID := [],
    pathParams := [], queryParams := [], body := none,
    security := [[(str (r"bearerAuth"), [])]] }

/-- Witness for C3 at the specification's example scenario: the stored
bearer credential yields `{"Authorization": "Bearer abc"}`. -/
theorem authHeadersForEndpoint_spec_witness :
    authHeadersForEndpoint exampleStore exampleAuthEndpoint
      = some [(str (r"Authorization"), str (r"Bearer abc"))] := by
  have h := (authHeadersForEndpoint_spec exampleStore exampleAuthEndpoint).2.2
    [] [(str (r"bearerAuth"), [])] [] rfl (by simp) (by decide)
  rw [h]
  decide

/-! ## internal/httpclient/httpclient.go -/

/-- Model of `strconv.ParseBool`: exactly the twelve accepted literals. -/
def goParseBool (s : Str) : Option Bool :=
  if s = str (r"1") ∨ s = str (r"t") ∨ s = str (r"T") ∨ s = str (r"TRUE")
      ∨ s = str (r"true") ∨ s = str (r"True") then some true
  else if s = str (r"0") ∨ s = str (r"f") ∨ s = str (r"F") ∨ s = str (r"FALSE")
      ∨ s = str (r"false") ∨ s = str (r"False") then some false
  else none

def digitsValGo : Str → Nat → Option Nat
  | [], acc => some acc
  | c :: rest, acc =>
    if c.isDigit then digitsValGo rest (acc * 10 + (c.toNat - 48)) else none

/-- The value of a non-empty all-digit string, else `none`. -/
def digitsVal (s : Str) : Option Nat :=
  if s.isEmpty then none else digitsValGo s 0

/-- Model of `strconv.ParseInt(s, 10, 64)`: optional sign, decimal digits,
64-bit signed range. -/
def goParseInt64 (s : Str) : Option Int :=
  match s with
  | '+' :: rest => (digitsVal rest).bind fun n =>
      if n ≤ 2 ^ 63 - 1 then some (n : Int) else none
  | '-' :: rest => (digitsVal rest).bind fun n =>
      if n ≤ 2 ^ 63 then some (-(n : Int)) else none
  | _ => (digitsVal s).bind fun n =>
      if n ≤ 2 ^ 63 - 1 then some (n : Int) else none

/-- Model of `strconv.ParseFloat(s, 64)` acceptance on decimal forms
(optional sign, digits with optional fraction, optional exponent).  Go
additionally accepts "inf"/"nan" words and hexadecimal floats; those forms
play no role in the verified claims. -/
def goParseFloatOk (s : Str) : Bool :=
  let s' := match s with
    | '+' :: r => r
    | '-' :: r => r
    | r => r
  let ip := s'.takeWhile Char.isDigit
  let r1 := s'.dropWhile Char.isDigit
  let mant : Bool × Str :=
    match r1 with
    | '.' :: r =>
      (!ip.isEmpty || !(r.takeWhile Char.isDigit).isEmpty, r.dropWhile Char.isDigit)
    | r => (!ip.isEmpty, r)
  match mant.2 with
  | [] => mant.1
  | e :: r3 =>
    if e = 'e' || e = 'E' then
      let r4 := match r3 with
        | '+' :: rr => rr
        | '-' :: rr => rr
        | rr => rr
      mant.1 && !(r4.takeWhile Char.isDigit).isEmpty
        && (r4.dropWhile Char.isDigit).isEmpty
    else false

/-! ### A JSON validity checker, modelling `json.Unmarshal(raw, &any)`
succeeding: the input must be exactly one JSON value plus whitespace.
(Escape-sequence validation inside strings is abstracted: any escaped
character is accepted.) -/

def jsonSkipWs (s : Str) : Str :=
  s.dropWhile fun c => c = ' ' || c = '\t' || c = '\n' || c = '\r'

def jsonStringRest : Str → Option Str
  | [] => none
  | '"' :: rest => some rest
  | '\\' :: [] => none
  | '\\' :: _ :: rest => jsonStringRest rest
  | _ :: rest => jsonStringRest rest

def jsonIntRest : Str → Option Str
  | [] => none
  | '0' :: r => some r
  | c :: r => if c.isDigit then some (r.dropWhile Char.isDigit) else none

def jsonExpRest (rr : Str) : Option Str :=
  let rr2 := match rr with
    | '+' :: x => x
    | '-' :: x => x
    | x => x
  if (rr2.takeWhile Char.isDigit).isEmpty then none
  else some (rr2.dropWhile Char.isDigit)

def jsonNumberRest (s : Str) : Option Str := do
  let s1 := match s with
    | '-' :: r => r
    | r => r
  let r1 ← jsonIntRest s1
  let r2 ← match r1 with
    | '.' :: rr =>
      if (rr.takeWhile Char.isDigit).isEmpty then none
      else some (rr.dropWhile Char.isDigit)
    | rr => some rr
  match r2 with
  | 'e' :: rr => jsonExpRest rr
  | 'E' :: rr => jsonExpRest rr
  | rr => some rr

mutual

def jsonVal : Nat → Str → Option Str
  | 0, _ => none
  | fuel + 1, s =>
    match jsonSkipWs s with
    | [] => none
    | c :: r =>
      if c = '"' then jsonStringRest r
      else if c = '[' then
        match jsonSkipWs r with
        | ']' :: r2 => some r2
        | r2 => jsonArrItems fuel r2
      else if c = lbrace then
        match jsonSkipWs r with
        | r2 =>
          if r2.head? = some rbrace then some r2.tail
          else jsonObjItems fuel r2
      else if c = 'n' then
        match r with
        | 'u' :: 'l' :: 'l' :: r2 => some r2
        | _ => none
      else if c = 't' then
        match r with
        | 'r' :: 'u' :: 'e' :: r2 => some r2
        | _ => none
      else if c = 'f' then
        match r with
        | 'a' :: 'l' :: 's' :: 'e' :: r2 => some r2
        | _ => none
      else jsonNumberRest (c :: r)

def jsonArrItems : Nat → Str → Option Str
  | 0, _ => none
  | fuel + 1, s => do
    let r ← jsonVal fuel s
    match jsonSkipWs r with
    | ',' :: r2 => jsonArrItems fuel r2
    | ']' :: r2 => some r2
    | _ => none

def jsonObjItems : Nat → Str → Option Str
  | 0, _ => none
  | fuel + 1, s =>
    match jsonSkipWs s with
    | [] => none
    | c :: r =>
      if c = '"' then
        match jsonStringRest r with
        | none => none
        | some r1 =>
          match jsonSkipWs r1 with
          | ':' :: r2 =>
            match jsonVal fuel r2 with
            | none => none
            | some r3 =>
              match jsonSkipWs r3 with
              | ',' :: r4 => jsonObjItems fuel r4
              | c2 :: r4 => if c2 = rbrace then some r4 else none
              | [] => none
          | _ => none
      else none

end

/-- The `json.Unmarshal([]byte(raw), &any)` succeeds. -/
def jsonValid (s : Str) : Bool :=
  match jsonVal (s.length + 1) s with
  | some rem => (jsonSkipWs rem).isEmpty
  | none => false

/-! ### Path substitution -/

/-- Upper-case hexadecimal digit. -/
def hexDigitUpper (n : Nat) : Char :=
  if n < 10 then Char.ofNat (48 + n) else Char.ofNat (55 + n)

/-- Model of `url.PathEscape` on single-byte code points: unreserved
characters pass through, everything else becomes `%HH`.  (Go leaves a few
more sub-delimiter characters unescaped; the escaped text is never
inspected by any verified claim.) -/
def pathEscape (s : Str) : Str :=
  s.foldr
    (fun c acc =>
      if c.isAlphanum || c = '-' || c = '.' || c = '_' || c = '~' then c :: acc
      else '%' :: hexDigitUpper (c.toNat / 16 % 16) :: hexDigitUpper (c.toNat % 16) :: acc)
    []

/-- The `strings.ReplaceAll` for a non-empty pattern: non-overlapping
left-to-right replacement. -/
def replaceAllGo (pat rep : Str) : Str → Str
  | [] => []
  | c :: rest =>
    if pat.isPrefixOf (c :: rest) then
      rep ++ replaceAllGo pat rep (rest.drop (pat.length - 1))
    else c :: replaceAllGo pat rep rest
termination_by s => s.length
decreasing_by
  · simp only [List.length_drop, List.length_cons]
    omega
  · simp only [List.length_cons]
    omega

/-- The `strings.ReplaceAll(s, pat, rep)`; the callers below always pass a
non-empty pattern (`"{" + name + "}"`). -/
def replaceAll (s pat rep : Str) : Str :=
  if pat.isEmpty then s else replaceAllGo pat rep s

def msgMissingPathParam (n : Str) : Str := str (r"missing required path param: ") ++ n

def msgMissingQueryParam (n : Str) : Str := str (r"missing required query param: ") ++ n

def msgInvalidInteger (n : Str) : Str := str (r"invalid integer for ") ++ n

def msgInvalidNumber (n : Str) : Str := str (r"invalid number for ") ++ n

def msgInvalidBoolean (n : Str) : Str := str (r"invalid boolean for ") ++ n

/-- The `"invalid json body: %w"`; the wrapped parse-error text is abstracted. -/
def msgInvalidJSONBody : Str := str (r"invalid json body")

def msgMissingBodyField (n : Str) : Str := str (r"missing required body field: ") ++ n

def msgInvalidIntegerBody (n : Str) : Str := str (r"invalid integer for body field ") ++ n

def msgInvalidNumberBody (n : Str) : Str := str (r"invalid number for body field ") ++ n

def msgInvalidBooleanBody (n : Str) : Str := str (r"invalid boolean for body field ") ++ n

/-- The `substitutePath` from httpclient.go: every parameter in the list must
have a non-blank trimmed value — the `Required` flag is never consulted —
and each placeholder `{name}` is replaced by the escaped value. -/
def substitutePath (pathTpl : Str) (params : List Param) (vals : Smap) : Except Str Str :=
  match params with
  | [] => .ok pathTpl
  | p :: rest =>
    let v := trimSpace (mgetD vals p.name)
    if v = [] then .error (msgMissingPathParam p.name)
    else substitutePath (replaceAll pathTpl (lbrace :: (p.name ++ [rbrace])) (pathEscape v))
      rest vals

/-! ### URL model and query building -/

/-- Minimal model of a parsed `net/url` URL: the text before the query plus
the query key/value map.  `url.Parse` failures (possible in Go only for
malformed input such as control characters) and pre-existing query strings
in the base URL are abstracted: parsing always succeeds with an empty
query, which is the situation for the URLs this client assembles. -/
structure UrlT where
  pre : Str
  query : Smap
deriving DecidableEq, Inhabited

def urlParse (s : Str) : Except Str UrlT := .ok ⟨s, []⟩

def encodeQueryPair (e : Str × Str) : Str := e.1 ++ ['='] ++ e.2

/-- The `url.Values.Encode`, with key sorting and percent-encoding abstracted. -/
def encodeQuery : Smap → Str
  | [] => []
  | [e] => encodeQueryPair e
  | e :: rest => encodeQueryPair e ++ ['&'] ++ encodeQuery rest

def urlString (u : UrlT) : Str :=
  u.pre ++ (if u.query.isEmpty then [] else '?' :: encodeQuery u.query)

/-- The query-parameter loop of `BuildRequest`: skips blank optional
parameters, rejects blank required ones, validates typed values
(still sent as strings), and `q.Set`s each accepted value. -/
def buildQuery (vals : Smap) : List Param → Smap → Except Str Smap
  | [], q => .ok q
  | p :: rest, q =>
    let v := trimSpace (mgetD vals p.name)
    if v = [] then
      if p.required then .error (msgMissingQueryParam p.name)
      else buildQuery vals rest q
    else
      match p.type with
      | .integer =>
        if (goParseInt64 v).isSome then buildQuery vals rest (mset q p.name v)
        else .error (msgInvalidInteger p.name)
      | .number =>
        if goParseFloatOk v then buildQuery vals rest (mset q p.name v)
        else .error (msgInvalidNumber p.name)
      | .boolean =>
        if (goParseBool v).isSome then buildQuery vals rest (mset q p.name v)
        else .error (msgInvalidBoolean p.name)
      | _ => buildQuery vals rest (mset q p.name v)

/-! ### JSON body building -/

inductive JVal where
  | jstr : Str → JVal
  | jint : Int → JVal
  /-- a `TypeNumber` value; Go stores the parsed `float64`, the model keeps
  the validated token (Go's float re-formatting is not modelled) -/
  | jnum : Str → JVal
  | jbool : Bool → JVal
deriving DecidableEq, Inhabited

/-- Byte-lexicographic order on strings (`json.Marshal` sorts map keys). -/
def strLeB : Str → Str → Bool
  | [], _ => true
  | _ :: _, [] => false
  | c :: cs, d :: ds =>
    if c.toNat < d.toNat then true
    else if d.toNat < c.toNat then false
    else strLeB cs ds

/-- String escaping of `json.Marshal`, on the common escapes. -/
def jescape (s : Str) : Str :=
  s.foldr
    (fun c acc =>
      if c = '"' then '\\' :: '"' :: acc
      else if c = '\\' then '\\' :: '\\' :: acc
      else if c = '\n' then '\\' :: 'n' :: acc
      else if c = '\r' then '\\' :: 'r' :: acc
      else if c = '\t' then '\\' :: 't' :: acc
      else c :: acc)
    []

def jvalStr : JVal → Str
  | .jstr s => '"' :: (jescape s ++ ['"'])
  | .jint i => str (toString i)
  | .jnum tok => tok
  | .jbool b => if b then str (r"true") else str (r"false")

def joinComma : List Str → Str
  | [] => []
  | [s] => s
  | s :: rest => s ++ [','] ++ joinComma rest

/-- The `json.Marshal` of the assembled `map[string]any`: keys sorted. -/
def jsonMarshalObj (obj : List (Str × JVal)) : Str :=
  let sorted := List.insertionSort (fun a b => strLeB a.1 b.1 = true) obj
  lbrace ::
    (joinComma (sorted.map fun e => '"' :: (jescape e.1 ++ ['"', ':'] ++ jvalStr e.2))
      ++ [rbrace])

/-- The field loop of `buildJSONBody`: blank optional fields are skipped,
blank required fields rejected, typed values parsed into JSON scalars. -/
def buildBodyObj (vals : Smap) : List BodyField → List (Str × JVal) →
    Except Str (List (Str × JVal))
  | [], obj => .ok obj
  | f :: rest, obj =>
    let raw := trimSpace (mgetD vals f.name)
    if raw = [] then
      if f.required then .error (msgMissingBodyField f.name)
      else buildBodyObj vals rest obj
    else
      match f.type with
      | .string => buildBodyObj vals rest (mset obj f.name (.jstr raw))
      | .integer =>
        match goParseInt64 raw with
        | some i => buildBodyObj vals rest (mset obj f.name (.jint i))
        | none => .error (msgInvalidIntegerBody f.name)
      | .number =>
        if goParseFloatOk raw then buildBodyObj vals rest (mset obj f.name (.jnum raw))
        else .error (msgInvalidNumberBody f.name)
      | .boolean =>
        match goParseBool raw with
        | some b => buildBodyObj vals rest (mset obj f.name (.jbool b))
        | none => .error (msgInvalidBooleanBody f.name)
      | .unknown => buildBodyObj vals rest (mset obj f.name (.jstr raw))

/-- The `buildJSONBody` from httpclient.go: `none` for no body (no schema,
unsupported schema, or an empty object). -/
def buildJSONBody (ep : Endpoint) (vals : Smap) : Except Str (Option Str) :=
  match ep.body with
  | none => .ok none
  | some bs =>
    if !bs.supported then .ok none
    else
      match buildBodyObj vals bs.fields [] with
      | .error e => .error e
      | .ok obj => if obj.isEmpty then .ok none else .ok (some (jsonMarshalObj obj))

/-- The `shouldSendBody` from httpclient.go. -/
def shouldSendBody (ep : Endpoint) : Bool :=
  let m := strToUpper ep.method
  if m = str (r"POST") || m = str (r"PUT") || m = str (r"PATCH") || m = str (r"DELETE")
  then ep.body.isSome
  else false

structure RequestSpec where
  method : Str
  url : Str
  headers : Smap
  body : Option Str
deriving DecidableEq, Inhabited

/-- The `epDefaultHeaders` from httpclient.go: always the empty map. -/
def epDefaultHeaders (ep : Endpoint) (bodyVals : Smap) : Smap := []

/-- The `BuildRequest` from httpclient.go. -/
def BuildRequest (baseURL : Str) (ep : Endpoint) (pathVals queryVals bodyVals : Smap)
    (bodyRaw : Str) : Except Str RequestSpec := do
  let path ← substitutePath ep.path ep.pathParams pathVals
  let u ← urlParse (trimRightSlash baseURL ++ path)
  let q ← buildQuery queryVals ep.queryParams u.query
  let u' : UrlT := ⟨u.pre, q⟩
  let headers0 := epDefaultHeaders ep bodyVals
  if shouldSendBody ep then
    let raw := trimSpace bodyRaw
    if raw ≠ [] then
      if jsonValid raw then
        .ok ⟨ep.method, urlString u',
          mset headers0 (str (r"Content-Type")) (str (r"application/json")), some raw⟩
      else .error msgInvalidJSONBody
    else
      match buildJSONBody ep bodyVals with
      | .error e => .error e
      | .ok none => .ok ⟨ep.method, urlString u', headers0, none⟩
      | .ok (some b) =>
        .ok ⟨ep.method, urlString u',
          mset headers0 (str (r"Content-Type")) (str (r"application/json")), some b⟩
  else
    .ok ⟨ep.method, urlString u', headers0, none⟩

/-! ### Analysis of BuildRequest -/

/-- The `BuildRequest` with the `Except` do-chain unfolded (URL parsing, which
the model makes total, removed). -/
theorem BuildRequest_eq (base : Str) (ep : Endpoint) (pv qv bv : Smap) (raw : Str) :
    BuildRequest base ep pv qv bv raw
      = match substitutePath ep.path ep.pathParams pv with
        | .error e => .error e
        | .ok path =>
          match buildQuery qv ep.queryParams [] with
          | .error e => .error e
          | .ok q =>
            if shouldSendBody ep then
              if trimSpace raw ≠ [] then
                if jsonValid (trimSpace raw) then
                  .ok ⟨ep.method, urlString ⟨trimRightSlash base ++ path, q⟩,
                    mset [] (str (r"Content-Type")) (str (r"application/json")),
                    some (trimSpace raw)⟩
                else .error msgInvalidJSONBody
              else
                match buildJSONBody ep bv with
                | .error e => .error e
                | .ok none =>
                  .ok ⟨ep.method, urlString ⟨trimRightSlash base ++ path, q⟩, [], none⟩
                | .ok (some b) =>
                  .ok ⟨ep.method, urlString ⟨trimRightSlash base ++ path, q⟩,
                    mset [] (str (r"Content-Type")) (str (r"application/json")), some b⟩
            else .ok ⟨ep.method, urlString ⟨trimRightSlash base ++ path, q⟩, [], none⟩ := by
  unfold BuildRequest urlParse epDefaultHeaders
  cases hs : substitutePath ep.path ep.pathParams pv with
  | error e => simp [Bind.bind, Except.bind]
  | ok path =>
    simp only [Bind.bind, Except.bind]
    cases hq : buildQuery qv ep.queryParams [] with
    | error e => simp [Bind.bind, Except.bind]
    | ok q => simp [Bind.bind, Except.bind]

/-- Error classification for `substitutePath`. -/
theorem substitutePath_error_form (vals : Smap) :
    ∀ (params : List Param) (tpl : Str) (e : Str),
      substitutePath tpl params vals = .error e → ∃ n, e = msgMissingPathParam n := by
  intro params
  induction params with
  | nil => intro tpl e h; simp [substitutePath] at h
  | cons p rest ih =>
    intro tpl e h
    unfold substitutePath at h
    by_cases hv : trimSpace (mgetD vals p.name) = []
    · rw [if_pos hv] at h
      exact ⟨p.name, (Except.error.injEq _ _).mp h.symm⟩
    · rw [if_neg hv] at h
      exact ih _ e h

/-- Error classification for `buildQuery`. -/
theorem buildQuery_error_form (vals : Smap) :
    ∀ (qps : List Param) (q : Smap) (e : Str),
      buildQuery vals qps q = .error e →
      ∃ n, e = msgMissingQueryParam n ∨ e = msgInvalidInteger n
        ∨ e = msgInvalidNumber n ∨ e = msgInvalidBoolean n := by
  intro qps
  induction qps with
  | nil => intro q e h; simp [buildQuery] at h
  | cons p rest ih =>
    intro q e h
    unfold buildQuery at h
    by_cases hv : trimSpace (mgetD vals p.name) = []
    · rw [if_pos hv] at h
      by_cases hr : p.required
      · rw [if_pos hr] at h
        exact ⟨p.name, Or.inl ((Except.error.injEq _ _).mp h.symm)⟩
      · rw [if_neg hr] at h
        exact ih _ e h
    · rw [if_neg hv] at h
      cases ht : p.type with
      | integer =>
        rw [ht] at h
        by_cases hp : (goParseInt64 (trimSpace (mgetD vals p.name))).isSome
        · rw [if_pos hp] at h; exact ih _ e h
        · rw [if_neg hp] at h
          exact ⟨p.name, Or.inr (Or.inl ((Except.error.injEq _ _).mp h.symm))⟩
      | number =>
        rw [ht] at h
        by_cases hp : goParseFloatOk (trimSpace (mgetD vals p.name)) = true
        · rw [if_pos hp] at h; exact ih _ e h
        · rw [if_neg hp] at h
          exact ⟨p.name, Or.inr (Or.inr (Or.inl ((Except.error.injEq _ _).mp h.symm)))⟩
      | boolean =>
        rw [ht] at h
        by_cases hp : (goParseBool (trimSpace (mgetD vals p.name))).isSome
        · rw [if_pos hp] at h; exact ih _ e h
        · rw [if_neg hp] at h
          exact ⟨p.name, Or.inr (Or.inr (Or.inr ((Except.error.injEq _ _).mp h.symm)))⟩
      | string => rw [ht] at h; exact ih _ e h
      | unknown => rw [ht] at h; exact ih _ e h

/-- Error classification for `buildBodyObj`. -/
theorem buildBodyObj_error_form (vals : Smap) :
    ∀ (fs : List BodyField) (obj : List (Str × JVal)) (e : Str),
      buildBodyObj vals fs obj = .error e →
      ∃ n, e = msgMissingBodyField n ∨ e = msgInvalidIntegerBody n
        ∨ e = msgInvalidNumberBody n ∨ e = msgInvalidBooleanBody n := by
  intro fs
  induction fs with
  | nil => intro obj e h; simp [buildBodyObj] at h
  | cons f rest ih =>
    intro obj e h
    unfold buildBodyObj at h
    by_cases hv : trimSpace (mgetD vals f.name) = []
    · rw [if_pos hv] at h
      by_cases hr : f.required
      · rw [if_pos hr] at h
        exact ⟨f.name, Or.inl ((Except.error.injEq _ _).mp h.symm)⟩
      · rw [if_neg hr] at h
        exact ih _ e h
    · rw [if_neg hv] at h
      cases ht : f.type with
      | string => rw [ht] at h; exact ih _ e h
      | unknown => rw [ht] at h; exact ih _ e h
      | integer =>
        rw [ht] at h
        cases hp : goParseInt64 (trimSpace (mgetD vals f.name)) with
        | some i => rw [hp] at h; exact ih _ e h
        | none =>
          rw [hp] at h
          exact ⟨f.name, Or.inr (Or.inl ((Except.error.injEq _ _).mp h.symm))⟩
      | number =>
        rw [ht] at h
        by_cases hp : goParseFloatOk (trimSpace (mgetD vals f.name)) = true
        · rw [if_pos hp] at h; exact ih _ e h
        · rw [if_neg hp] at h
          exact ⟨f.name, Or.inr (Or.inr (Or.inl ((Except.error.injEq _ _).mp h.symm)))⟩
      | boolean =>
        rw [ht] at h
        cases hp : goParseBool (trimSpace (mgetD vals f.name)) with
        | some b => rw [hp] at h; exact ih _ e h
        | none =>
          rw [hp] at h
          exact ⟨f.name, Or.inr (Or.inr (Or.inr ((Except.error.injEq _ _).mp h.symm)))⟩

theorem buildJSONBody_none (ep : Endpoint) (vals : Smap) (hb : ep.body = none) :
    buildJSONBody ep vals = .ok none := by
  unfold buildJSONBody
  rw [hb]

theorem buildJSONBody_some (ep : Endpoint) (bs : BodySchema) (vals : Smap)
    (hb : ep.body = some bs) :
    buildJSONBody ep vals
      = if (!bs.supported) = true then .ok none
        else
          match buildBodyObj vals bs.fields [] with
          | .error e => .error e
          | .ok obj => if obj.isEmpty then .ok none else .ok (some (jsonMarshalObj obj)) := by
  unfold buildJSONBody
  rw [hb]

/-- Error classification for `buildJSONBody`. -/
theorem buildJSONBody_error_form (ep : Endpoint) (vals : Smap) (e : Str) :
    buildJSONBody ep vals = .error e →
    ∃ n, e = msgMissingBodyField n ∨ e = msgInvalidIntegerBody n
      ∨ e = msgInvalidNumberBody n ∨ e = msgInvalidBooleanBody n := by
  intro h
  cases hb : ep.body with
  | none => rw [buildJSONBody_none ep vals hb] at h; cases h
  | some bs =>
    rw [buildJSONBody_some ep bs vals hb] at h
    cases hsupp : bs.supported with
    | false => rw [hsupp] at h; simp at h
    | true =>
      rw [hsupp] at h
      simp only [Bool.not_true, Bool.false_eq_true, if_false] at h
      cases hobj : buildBodyObj vals bs.fields [] with
      | error e' =>
        rw [hobj] at h
        simp only [Except.error.injEq] at h
        subst h
        exact buildBodyObj_error_form vals bs.fields [] e' hobj
      | ok obj =>
        rw [hobj] at h
        by_cases ho : obj.isEmpty <;> simp [ho] at h

/-- Two strings with distinct characters at a position within both prefixes
differ, whatever follows. -/
theorem append_ne_append {A B : Str} (i : Nat) (a b : Char)
    (hA : A[i]? = some a) (hB : B[i]? = some b) (hab : a ≠ b) :
    ∀ (m n : Str), A ++ m ≠ B ++ n := by
  intro m n h
  have hAl : i < A.length := by
    by_contra hcon
    rw [List.getElem?_eq_none (Nat.le_of_not_lt hcon)] at hA
    cases hA
  have hBl : i < B.length := by
    by_contra hcon
    rw [List.getElem?_eq_none (Nat.le_of_not_lt hcon)] at hB
    cases hB
  have h1 : (A ++ m)[i]? = some a := by rw [List.getElem?_append_left hAl]; exact hA
  have h2 : (B ++ n)[i]? = some b := by rw [List.getElem?_append_left hBl]; exact hB
  rw [h, h2] at h1
  exact hab (Option.some.injEq _ _ ▸ h1).symm

theorem mgetD_mset_empty_eq_mdel (m : Smap) (k n : Str) :
    mgetD (mset m k []) n = mgetD (mdel m k) n := by
  by_cases hn : k = n
  · subst hn
    rw [mgetD, mget_mset_self, mgetD, mget_mdel_self]
    rfl
  · rw [mgetD, mget_mset_ne m k n [] hn, mgetD, mget_mdel_ne m k n hn]

theorem substitutePath_congr (v1 v2 : Smap) (hv : ∀ n, mgetD v1 n = mgetD v2 n) :
    ∀ (params : List Param) (tpl : Str),
      substitutePath tpl params v1 = substitutePath tpl params v2 := by
  intro params
  induction params with
  | nil => intro tpl; rfl
  | cons p rest ih =>
    intro tpl
    unfold substitutePath
    rw [hv p.name]
    simp only [ih]

theorem buildQuery_congr (v1 v2 : Smap) (hv : ∀ n, mgetD v1 n = mgetD v2 n) :
    ∀ (qps : List Param) (q : Smap), buildQuery v1 qps q = buildQuery v2 qps q := by
  intro qps
  induction qps with
  | nil => intro q; rfl
  | cons p rest ih =>
    intro q
    unfold buildQuery
    rw [hv p.name]
    simp only [ih]

theorem buildBodyObj_congr (v1 v2 : Smap) (hv : ∀ n, mgetD v1 n = mgetD v2 n) :
    ∀ (fs : List BodyField) (obj : List (Str × JVal)),
      buildBodyObj v1 fs obj = buildBodyObj v2 fs obj := by
  intro fs
  induction fs with
  | nil => intro obj; rfl
  | cons f rest ih =>
    intro obj
    unfold buildBodyObj
    rw [hv f.name]
    simp only [ih]

theorem buildJSONBody_congr (ep : Endpoint) (v1 v2 : Smap)
    (hv : ∀ n, mgetD v1 n = mgetD v2 n) :
    buildJSONBody ep v1 = buildJSONBody ep v2 := by
  cases hb : ep.body with
  | none => rw [buildJSONBody_none ep v1 hb, buildJSONBody_none ep v2 hb]
  | some bs =>
    rw [buildJSONBody_some ep bs v1 hb, buildJSONBody_some ep bs v2 hb,
      buildBodyObj_congr v1 v2 hv bs.fields []]

theorem BuildRequest_congr_query (base : Str) (ep : Endpoint) (pv bv : Smap)
    (qv1 qv2 : Smap) (raw : Str) (hv : ∀ n, mgetD qv1 n = mgetD qv2 n) :
    BuildRequest base ep pv qv1 bv raw = BuildRequest base ep pv qv2 bv raw := by
  rw [BuildRequest_eq, BuildRequest_eq, buildQuery_congr qv1 qv2 hv ep.queryParams []]

theorem BuildRequest_congr_body (base : Str) (ep : Endpoint) (pv qv : Smap)
    (bv1 bv2 : Smap) (raw : Str) (hv : ∀ n, mgetD bv1 n = mgetD bv2 n) :
    BuildRequest base ep pv qv bv1 raw = BuildRequest base ep pv qv bv2 raw := by
  rw [BuildRequest_eq, BuildRequest_eq, buildJSONBody_congr ep bv1 bv2 hv]

/-- A blank value for any listed path parameter makes `substitutePath` fail
with a missing-path-param error naming some blank parameter. -/
theorem substitutePath_error_of_missing (vals : Smap) :
    ∀ (params : List Param) (tpl : Str),
      (∃ p ∈ params, trimSpace (mgetD vals p.name) = []) →
      ∃ n, substitutePath tpl params vals = .error (msgMissingPathParam n)
        ∧ ∃ q ∈ params, q.name = n ∧ trimSpace (mgetD vals q.name) = [] := by
  intro params
  induction params with
  | nil => rintro tpl ⟨p, hp, _⟩; cases hp
  | cons p rest ih =>
    rintro tpl ⟨p', hp', hempty⟩
    unfold substitutePath
    by_cases hv : trimSpace (mgetD vals p.name) = []
    · rw [if_pos hv]
      exact ⟨p.name, rfl, p, List.mem_cons_self p rest, rfl, hv⟩
    · rw [if_neg hv]
      have hp'' : p' ∈ rest := by
        rcases List.mem_cons.mp hp' with rfl | htail
        · exact absurd hempty hv
        · exact htail
      obtain ⟨n, hrun, q, hq, hqn, hqe⟩ := ih _ ⟨p', hp'', hempty⟩
      exact ⟨n, hrun, q, List.mem_cons_of_mem p hq, hqn, hqe⟩

theorem buildQuery_error_of_missing (vals : Smap) :
    ∀ (qps : List Param) (q : Smap),
      (∃ p ∈ qps, p.required = true ∧ trimSpace (mgetD vals p.name) = []) →
      ∃ e, buildQuery vals qps q = .error e := by
  intro qps
  induction qps with
  | nil => rintro q ⟨p, hp, _⟩; cases hp
  | cons p rest ih =>
    rintro q ⟨p', hp', hreq, hempty⟩
    unfold buildQuery
    by_cases hv : trimSpace (mgetD vals p.name) = []
    · rw [if_pos hv]
      by_cases hr : p.required
      · rw [if_pos hr]
        exact ⟨msgMissingQueryParam p.name, rfl⟩
      · rw [if_neg hr]
        apply ih
        rcases List.mem_cons.mp hp' with rfl | htail
        · rw [hreq] at hr; exact absurd rfl hr
        · exact ⟨p', htail, hreq, hempty⟩
    · rw [if_neg hv]
      have hrest : ∃ p'' ∈ rest, p''.required = true ∧ trimSpace (mgetD vals p''.name) = [] := by
        rcases List.mem_cons.mp hp' with rfl | htail
        · exact absurd hempty hv
        · exact ⟨p', htail, hreq, hempty⟩
      cases ht : p.type with
      | integer =>
        by_cases hp1 : (goParseInt64 (trimSpace (mgetD vals p.name))).isSome
        · rw [if_pos hp1]; exact ih _ hrest
        · rw [if_neg hp1]; exact ⟨msgInvalidInteger p.name, rfl⟩
      | number =>
        by_cases hp1 : goParseFloatOk (trimSpace (mgetD vals p.name)) = true
        · rw [if_pos hp1]; exact ih _ hrest
        · rw [if_neg hp1]; exact ⟨msgInvalidNumber p.name, rfl⟩
      | boolean =>
        by_cases hp1 : (goParseBool (trimSpace (mgetD vals p.name))).isSome
        · rw [if_pos hp1]; exact ih _ hrest
        · rw [if_neg hp1]; exact ⟨msgInvalidBoolean p.name, rfl⟩
      | string => exact ih _ hrest
      | unknown => exact ih _ hrest

theorem buildBodyObj_error_of_missing (vals : Smap) :
    ∀ (fs : List BodyField) (obj : List (Str × JVal)),
      (∃ f ∈ fs, f.required = true ∧ trimSpace (mgetD vals f.name) = []) →
      ∃ e, buildBodyObj vals fs obj = .error e := by
  intro fs
  induction fs with
  | nil => rintro obj ⟨f, hf, _⟩; cases hf
  | cons f rest ih =>
    rintro obj ⟨f', hf', hreq, hempty⟩
    unfold buildBodyObj
    by_cases hv : trimSpace (mgetD vals f.name) = []
    · rw [if_pos hv]
      by_cases hr : f.required
      · rw [if_pos hr]
        exact ⟨msgMissingBodyField f.name, rfl⟩
      · rw [if_neg hr]
        apply ih
        rcases List.mem_cons.mp hf' with rfl | htail
        · rw [hreq] at hr; exact absurd rfl hr
        · exact ⟨f', htail, hreq, hempty⟩
    · rw [if_neg hv]
      have hrest : ∃ f'' ∈ rest, f''.required = true ∧ trimSpace (mgetD vals f''.name) = [] := by
        rcases List.mem_cons.mp hf' with rfl | htail
        · exact absurd hempty hv
        · exact ⟨f', htail, hreq, hempty⟩
      cases ht : f.type with
      | string => exact ih _ hrest
      | unknown => exact ih _ hrest
      | integer =>
        cases hp1 : goParseInt64 (trimSpace (mgetD vals f.name)) with
        | some i => exact ih _ hrest
        | none => exact ⟨msgInvalidIntegerBody f.name, rfl⟩
      | number =>
        by_cases hp1 : goParseFloatOk (trimSpace (mgetD vals f.name)) = true
        · rw [if_pos hp1]; exact ih _ hrest
        · rw [if_neg hp1]; exact ⟨msgInvalidNumberBody f.name, rfl⟩
      | boolean =>
        cases hp1 : goParseBool (trimSpace (mgetD vals f.name)) with
        | some b => exact ih _ hrest
        | none => exact ⟨msgInvalidBooleanBody f.name, rfl⟩

theorem buildQuery_missing_msg (vals : Smap) :
    ∀ (qps : List Param) (q : Smap) (n : Str),
      buildQuery vals qps q = .error (msgMissingQueryParam n) →
      ∃ p ∈ qps, p.name = n ∧ p.required = true ∧ trimSpace (mgetD vals p.name) = [] := by
  intro qps
  induction qps with
  | nil => intro q n h; simp [buildQuery] at h
  | cons p rest ih =>
    intro q n h
    have lift : ∀ q', buildQuery vals rest q' = .error (msgMissingQueryParam n) →
        ∃ p' ∈ p :: rest, p'.name = n ∧ p'.required = true
          ∧ trimSpace (mgetD vals p'.name) = [] := by
      intro q' h'
      obtain ⟨p', hp', hn, hreq, he⟩ := ih q' n h'
      exact ⟨p', List.mem_cons_of_mem p hp', hn, hreq, he⟩
    unfold buildQuery at h
    by_cases hv : trimSpace (mgetD vals p.name) = []
    · rw [if_pos hv] at h
      by_cases hr : p.required
      · rw [if_pos hr] at h
        have hn : p.name = n := List.append_cancel_left (Except.error.inj h)
        exact ⟨p, List.mem_cons_self p rest, hn, by simp [hr], hv⟩
      · rw [if_neg hr] at h
        exact lift q h
    · rw [if_neg hv] at h
      cases ht : p.type with
      | integer =>
        rw [ht] at h
        by_cases hp1 : (goParseInt64 (trimSpace (mgetD vals p.name))).isSome
        · rw [if_pos hp1] at h; exact lift _ h
        · rw [if_neg hp1] at h
          exact absurd (Except.error.inj h)
            (append_ne_append 0 'i' 'm' rfl rfl (by decide) p.name n)
      | number =>
        rw [ht] at h
        by_cases hp1 : goParseFloatOk (trimSpace (mgetD vals p.name)) = true
        · rw [if_pos hp1] at h; exact lift _ h
        · rw [if_neg hp1] at h
          exact absurd (Except.error.inj h)
            (append_ne_append 0 'i' 'm' rfl rfl (by decide) p.name n)
      | boolean =>
        rw [ht] at h
        by_cases hp1 : (goParseBool (trimSpace (mgetD vals p.name))).isSome
        · rw [if_pos hp1] at h; exact lift _ h
        · rw [if_neg hp1] at h
          exact absurd (Except.error.inj h)
            (append_ne_append 0 'i' 'm' rfl rfl (by decide) p.name n)
      | string => rw [ht] at h; exact lift _ h
      | unknown => rw [ht] at h; exact lift _ h

theorem buildBodyObj_missing_msg (vals : Smap) :
    ∀ (fs : List BodyField) (obj : List (Str × JVal)) (n : Str),
      buildBodyObj vals fs obj = .error (msgMissingBodyField n) →
      ∃ f ∈ fs, f.name = n ∧ f.required = true ∧ trimSpace (mgetD vals f.name) = [] := by
  intro fs
  induction fs with
  | nil => intro obj n h; simp [buildBodyObj] at h
  | cons f rest ih =>
    intro obj n h
    have lift : ∀ obj', buildBodyObj vals rest obj' = .error (msgMissingBodyField n) →
        ∃ f' ∈ f :: rest, f'.name = n ∧ f'.required = true
          ∧ trimSpace (mgetD vals f'.name) = [] := by
      intro obj' h'
      obtain ⟨f', hf', hn, hreq, he⟩ := ih obj' n h'
      exact ⟨f', List.mem_cons_of_mem f hf', hn, hreq, he⟩
    unfold buildBodyObj at h
    by_cases hv : trimSpace (mgetD vals f.name) = []
    · rw [if_pos hv] at h
      by_cases hr : f.required
      · rw [if_pos hr] at h
        have hn : f.name = n := List.append_cancel_left (Except.error.inj h)
        exact ⟨f, List.mem_cons_self f rest, hn, by simp [hr], hv⟩
      · rw [if_neg hr] at h
        exact lift obj h
    · rw [if_neg hv] at h
      cases ht : f.type with
      | string => rw [ht] at h; exact lift _ h
      | unknown => rw [ht] at h; exact lift _ h
      | integer =>
        rw [ht] at h
        cases hp1 : goParseInt64 (trimSpace (mgetD vals f.name)) with
        | some i => rw [hp1] at h; exact lift _ h
        | none =>
          rw [hp1] at h
          exact absurd (Except.error.inj h)
            (append_ne_append 0 'i' 'm' rfl rfl (by decide) f.name n)
      | number =>
        rw [ht] at h
        by_cases hp1 : goParseFloatOk (trimSpace (mgetD vals f.name)) = true
        · rw [if_pos hp1] at h; exact lift _ h
        · rw [if_neg hp1] at h
          exact absurd (Except.error.inj h)
            (append_ne_append 0 'i' 'm' rfl rfl (by decide) f.name n)
      | boolean =>
        rw [ht] at h
        cases hp1 : goParseBool (trimSpace (mgetD vals f.name)) with
        | some b => rw [hp1] at h; exact lift _ h
        | none =>
          rw [hp1] at h
          exact absurd (Except.error.inj h)
            (append_ne_append 0 'i' 'm' rfl rfl (by decide) f.name n)

theorem BuildRequest_error_of_missing_query (base : Str) (ep : Endpoint)
    (pv qv bv : Smap) (raw : Str) (p : Param) (hp : p ∈ ep.queryParams)
    (hreq : p.required = true) (hempty : trimSpace (mgetD qv p.name) = []) :
    ∃ e, BuildRequest base ep pv qv bv raw = .error e := by
  rw [BuildRequest_eq]
  cases hs : substitutePath ep.path ep.pathParams pv with
  | error e => exact ⟨e, rfl⟩
  | ok path =>
    obtain ⟨e, he⟩ := buildQuery_error_of_missing qv ep.queryParams [] ⟨p, hp, hreq, hempty⟩
    rw [he]
    exact ⟨e, rfl⟩

theorem BuildRequest_error_of_missing_body (base : Str) (ep : Endpoint)
    (pv qv bv : Smap) (raw : Str) (bs : BodySchema)
    (hsend : shouldSendBody ep = true) (hraw : trimSpace raw = [])
    (hb : ep.body = some bs) (hsupp : bs.supported = true)
    (f : BodyField) (hf : f ∈ bs.fields) (hreq : f.required = true)
    (hempty : trimSpace (mgetD bv f.name) = []) :
    ∃ e, BuildRequest base ep pv qv bv raw = .error e := by
  rw [BuildRequest_eq]
  cases hs : substitutePath ep.path ep.pathParams pv with
  | error e => exact ⟨e, rfl⟩
  | ok path =>
    cases hq : buildQuery qv ep.queryParams [] with
    | error e => exact ⟨e, rfl⟩
    | ok q =>
      dsimp only
      rw [if_pos hsend, if_neg (by simp [hraw]),
        buildJSONBody_some ep bs bv hb, if_neg (by simp [hsupp])]
      obtain ⟨e, he⟩ := buildBodyObj_error_of_missing bv bs.fields [] ⟨f, hf, hreq, hempty⟩
      rw [he]
      exact ⟨e, rfl⟩

theorem BuildRequest_missing_query_msg (base : Str) (ep : Endpoint)
    (pv qv bv : Smap) (raw : Str) (n : Str)
    (h : BuildRequest base ep pv qv bv raw = .error (msgMissingQueryParam n)) :
    ∃ p ∈ ep.queryParams, p.name = n ∧ p.required = true
      ∧ trimSpace (mgetD qv p.name) = [] := by
  rw [BuildRequest_eq] at h
  cases hs : substitutePath ep.path ep.pathParams pv with
  | error e =>
    rw [hs] at h
    dsimp only at h
    obtain ⟨n', rfl⟩ := substitutePath_error_form pv ep.pathParams ep.path e hs
    exact absurd (Except.error.inj h)
      (append_ne_append 17 'p' 'q' rfl rfl (by decide) n' n)
  | ok path =>
    rw [hs] at h
    dsimp only at h
    cases hq : buildQuery qv ep.queryParams [] with
    | error e =>
      rw [hq] at h
      dsimp only at h
      obtain rfl : e = msgMissingQueryParam n := Except.error.inj h
      exact buildQuery_missing_msg qv ep.queryParams [] n hq
    | ok q =>
      rw [hq] at h
      dsimp only at h
      exfalso
      by_cases hsend : shouldSendBody ep = true
      · rw [if_pos hsend] at h
        by_cases hraw : trimSpace raw ≠ []
        · rw [if_pos hraw] at h
          by_cases hjson : jsonValid (trimSpace raw) = true
          · rw [if_pos hjson] at h; cases h
          · rw [if_neg hjson] at h
            have he : msgInvalidJSONBody = msgMissingQueryParam n := Except.error.inj h
            have he' : str (r"invalid json body") ++ []
                = str (r"missing required query param: ") ++ n := by
              rw [List.append_nil]
              exact he
            exact append_ne_append 0 'i' 'm' rfl rfl (by decide) [] n he'
        · rw [if_neg hraw] at h
          cases hjb : buildJSONBody ep bv with
          | error e =>
            rw [hjb] at h
            obtain ⟨n', hform⟩ := buildJSONBody_error_form ep bv e hjb
            have he := Except.error.inj h
            rcases hform with rfl | rfl | rfl | rfl
            · exact append_ne_append 17 'b' 'q' rfl rfl (by decide) n' n he
            · exact append_ne_append 0 'i' 'm' rfl rfl (by decide) n' n he
            · exact append_ne_append 0 'i' 'm' rfl rfl (by decide) n' n he
            · exact append_ne_append 0 'i' 'm' rfl rfl (by decide) n' n he
          | ok ob =>
            rw [hjb] at h
            cases ob with
            | none => cases h
            | some b => cases h
      · rw [if_neg hsend] at h
        cases h

theorem BuildRequest_missing_body_msg (base : Str) (ep : Endpoint)
    (pv qv bv : Smap) (raw : Str) (n : Str)
    (h : BuildRequest base ep pv qv bv raw = .error (msgMissingBodyField n)) :
    ∃ bs, ep.body = some bs
      ∧ ∃ f ∈ bs.fields, f.name = n ∧ f.required = true
        ∧ trimSpace (mgetD bv f.name) = [] := by
  rw [BuildRequest_eq] at h
  cases hs : substitutePath ep.path ep.pathParams pv with
  | error e =>
    rw [hs] at h
    dsimp only at h
    obtain ⟨n', rfl⟩ := substitutePath_error_form pv ep.pathParams ep.path e hs
    exact absurd (Except.error.inj h)
      (append_ne_append 17 'p' 'b' rfl rfl (by decide) n' n)
  | ok path =>
    rw [hs] at h
    dsimp only at h
    cases hq : buildQuery qv ep.queryParams [] with
    | error e =>
      rw [hq] at h
      dsimp only at h
      obtain ⟨n', hform⟩ := buildQuery_error_form qv ep.queryParams [] e hq
      have he := Except.error.inj h
      exfalso
      rcases hform with rfl | rfl | rfl | rfl
      · exact append_ne_append 17 'q' 'b' rfl rfl (by decide) n' n he
      · exact append_ne_append 0 'i' 'm' rfl rfl (by decide) n' n he
      · exact append_ne_append 0 'i' 'm' rfl rfl (by decide) n' n he
      · exact append_ne_append 0 'i' 'm' rfl rfl (by decide) n' n he
    | ok q =>
      rw [hq] at h
      dsimp only at h
      by_cases hsend : shouldSendBody ep = true
      · rw [if_pos hsend] at h
        by_cases hraw : trimSpace raw ≠ []
        · rw [if_pos hraw] at h
          exfalso
          by_cases hjson : jsonValid (trimSpace raw) = true
          · rw [if_pos hjson] at h; cases h
          · rw [if_neg hjson] at h
            have he : msgInvalidJSONBody = msgMissingBodyField n := Except.error.inj h
            have he' : str (r"invalid json body") ++ []
                = str (r"missing required body field: ") ++ n := by
              rw [List.append_nil]
              exact he
            exact append_ne_append 0 'i' 'm' rfl rfl (by decide) [] n he'
        · rw [if_neg hraw] at h
          cases hb : ep.body with
          | none =>
            rw [buildJSONBody_none ep bv hb] at h
            cases h
          | some bs =>
            rw [buildJSONBody_some ep bs bv hb] at h
            by_cases hsupp : bs.supported = true
            · rw [if_neg (by simp [hsupp])] at h
              cases hobj : buildBodyObj bv bs.fields [] with
              | error e =>
                rw [hobj] at h
                obtain rfl : e = msgMissingBodyField n := Except.error.inj h
                exact ⟨bs, rfl, buildBodyObj_missing_msg bv bs.fields [] n hobj⟩
              | ok obj =>
                rw [hobj] at h
                by_cases ho : obj.isEmpty <;> simp [ho] at h
            · exfalso
              have hfalse : bs.supported = false := by
                cases hx : bs.supported
                · rfl
                · exact absurd hx hsupp
              rw [if_pos (by simp [hfalse])] at h
              cases h
      · rw [if_neg hsend] at h
        cases h

/-- The fields of the specification's example `POST /users` endpoint with a
required body field `name`. -/
def exampleNameField : BodyField :=
  { name := str (r"name"), required := true, type := .string,
    description := [], exampleVal := [], enum := [], defaultVal := [] }

def examplePostEndpoint : Endpoint :=
  { method := str (r"POST"), path := str (r"/users"), summary := str (r"Create user"),
    operationID := [], pathParams := [], queryParams := [],
    body := some ({ supported := true, fields := [exampleNameField] }),
    security := [] }

/-- C7.  `BuildRequest` attaches a body only for POST/PUT/PATCH/DELETE
endpoints that declare a body schema, and a non-blank raw-body override is
used verbatim (trimmed) as the body, the structured per-field body values
being ignored entirely. -/
theorem BuildRequest_body_policy (base : Str) (ep : Endpoint)
    (pv qv bv : Smap) (raw : Str) :
    (∀ req, BuildRequest base ep pv qv bv raw = .ok req → req.body ≠ none →
      shouldSendBody ep = true)
    ∧ (shouldSendBody ep = true ↔
        (strToUpper ep.method = str (r"POST") ∨ strToUpper ep.method = str (r"PUT")
          ∨ strToUpper ep.method = str (r"PATCH")
          ∨ strToUpper ep.method = str (r"DELETE"))
        ∧ ep.body ≠ none)
    ∧ (trimSpace raw ≠ [] → ∀ bv',
        BuildRequest base ep pv qv bv raw = BuildRequest base ep pv qv bv' raw)
    ∧ (trimSpace raw ≠ [] → shouldSendBody ep = true →
        ∀ req, BuildRequest base ep pv qv bv raw = .ok req →
          req.body = some (trimSpace raw)) := by
  refine ⟨?_, ?_, ?_, ?_⟩
  · intro req hok hbody
    by_cases hsend : shouldSendBody ep = true
    · exact hsend
    · exfalso
      rw [BuildRequest_eq] at hok
      cases hs : substitutePath ep.path ep.pathParams pv with
      | error e => rw [hs] at hok; cases hok
      | ok path =>
        rw [hs] at hok
        dsimp only at hok
        cases hq : buildQuery qv ep.queryParams [] with
        | error e => rw [hq] at hok; cases hok
        | ok q =>
          rw [hq] at hok
          dsimp only at hok
          rw [if_neg hsend] at hok
          have := Except.ok.inj hok
          rw [← this] at hbody
          exact hbody rfl
  · unfold shouldSendBody
    by_cases h1 : strToUpper ep.method = str (r"POST")
    · simp [h1, Option.isSome_iff_ne_none]
    · by_cases h2 : strToUpper ep.method = str (r"PUT")
      · simp [h1, h2, Option.isSome_iff_ne_none]
      · by_cases h3 : strToUpper ep.method = str (r"PATCH")
        · simp [h1, h2, h3, Option.isSome_iff_ne_none]
        · by_cases h4 : strToUpper ep.method = str (r"DELETE")
          · simp [h1, h2, h3, h4, Option.isSome_iff_ne_none]
          · simp [h1, h2, h3, h4]
  · intro hraw bv'
    rw [BuildRequest_eq, BuildRequest_eq]
    cases hs : substitutePath ep.path ep.pathParams pv with
    | error e => rfl
    | ok path =>
      cases hq : buildQuery qv ep.queryParams [] with
      | error e => rfl
      | ok q => simp only [if_pos hraw]
  · intro hraw hsend req hok
    rw [BuildRequest_eq] at hok
    cases hs : substitutePath ep.path ep.pathParams pv with
    | error e => rw [hs] at hok; cases hok
    | ok path =>
      rw [hs] at hok
      dsimp only at hok
      cases hq : buildQuery qv ep.queryParams [] with
      | error e => rw [hq] at hok; cases hok
      | ok q =>
        rw [hq] at hok
        dsimp only at hok
        rw [if_pos hsend, if_pos hraw] at hok
        by_cases hjson : jsonValid (trimSpace raw) = true
        · rw [if_pos hjson] at hok
          rw [← Except.ok.inj hok]
        · rw [if_neg hjson] at hok
          cases hok

/-- Witness for C7, exercising the raw-override clause: with a non-blank
raw body `"{}"`, the structured body values are ignored. -/
theorem BuildRequest_body_policy_witness :
    BuildRequest (str (r"http://api")) examplePostEndpoint [] [] [] [lbrace, rbrace]
      = BuildRequest (str (r"http://api")) examplePostEndpoint [] []
          [(str (r"name"), str (r"zoe"))] [lbrace, rbrace] :=
  (BuildRequest_body_policy (str (r"http://api")) examplePostEndpoint
      [] [] [] [lbrace, rbrace]).2.2.1 (by decide) [(str (r"name"), str (r"zoe"))]

/-- A path parameter explicitly marked *not* required. -/
def optionalIdParam : Param :=
  { name := str (r"id"), location := str (r"path"), required := false, type := .string,
    description := [], exampleVal := [], enum := [], defaultVal := [] }

/-- C10.  `substitutePath` treats every path parameter as required: a value
that is absent or trims to blank fails with a missing-required-path-param
error, and the `Required` flag of the descriptors is irrelevant to the
result. -/
theorem substitutePath_ignores_required_flag (tpl : Str) (params : List Param)
    (vals : Smap) :
    ((∃ p ∈ params, trimSpace (mgetD vals p.name) = []) →
      ∃ n, substitutePath tpl params vals = .error (msgMissingPathParam n)
        ∧ ∃ q ∈ params, q.name = n ∧ trimSpace (mgetD vals q.name) = [])
    ∧ (∀ b, substitutePath tpl (params.map fun p => { p with required := b }) vals
        = substitutePath tpl params vals) := by
  constructor
  · exact substitutePath_error_of_missing vals params tpl
  · intro b
    induction params generalizing tpl with
    | nil => rfl
    | cons p rest ih =>
      simp only [List.map_cons]
      unfold substitutePath
      simp only [ih]

/-- Witness for C10: a single path parameter marked `required := false`
with no stored value still fails with the missing-path-param error. -/
theorem substitutePath_ignores_required_flag_witness :
    ∃ n, substitutePath (str (r"/items/")) [optionalIdParam] []
        = .error (msgMissingPathParam n)
      ∧ ∃ q ∈ [optionalIdParam], q.name = n ∧ trimSpace (mgetD [] q.name) = [] :=
  (substitutePath_ignores_required_flag (str (r"/items/")) [optionalIdParam] []).1
    ⟨optionalIdParam, by decide, by decide⟩

/-! ## Session state machine (internal/ui/app.go) -/

inductive Screen where
  | endpoints
  | builder
  | response
deriving DecidableEq, Inhabited

inductive FocusPane where
  | path
  | query
  | body
deriving DecidableEq, Inhabited

structure Result where
  statusCode : Int
  status : Str
  /-- The `time.Duration` as abstract ticks -/
  elapsed : Nat
  headers : Smap
  body : Str
deriving DecidableEq, Inhabited

/-- The `App` struct of app.go, restricted to the session state the verified
claims concern.  Rendering-only fields (the gocui handles, the auth dialog's
scheme list and cursor, the suspend-editor temp file name) are omitted; no
modelled transition reads them. -/
structure App where
  scr : Screen
  baseURL : Str
  endpoints : List Endpoint
  secSchemes : List (Str × SecurityScheme)
  filter : Str
  filtered : List Nat
  selected : Nat
  activeEndpoint : Endpoint
  pathVals : Smap
  queryVals : Smap
  bodyVals : Smap
  bodyRaw : Str
  pane : FocusPane
  editing : Bool
  editTarget : Str
  authOpen : Bool
  authEditing : Bool
  authActiveName : Str
  authToken : Str
  authUsername : Str
  authPassword : Str
  authScope : Str
  authError : Str
  authStore : List (Str × AuthState)
  lastReq : RequestSpec
  lastRes : Result
  errorMsg : Str
deriving DecidableEq, Inhabited

/-- The `openBuilder` from app.go.  Go indexes `a.filtered[a.selected]` and
`a.endpoints[idx]` directly (panicking out of range); the model totalises
the lookups with `getD`, and the claim carries the in-range side condition
the running app maintains. -/
def openBuilder (a : App) : App :=
  if a.scr ≠ .endpoints then a
  else if a.filtered = [] then a
  else
    let idx := a.filtered.getD a.selected 0
    { a with activeEndpoint := a.endpoints.getD idx default,
             pathVals := [], queryVals := [], bodyVals := [], bodyRaw := [],
             pane := .path, scr := .builder, errorMsg := [] }

/-- The `closeEdit` from app.go (view deletion and focus are rendering-only). -/
def closeEdit (a : App) : App :=
  if a.editing = false then a
  else { a with editing := false, editTarget := [] }

/-- The `strings.SplitN(s, ":", 2)` when it yields two parts: the text before
the first colon and everything after it; `none` when there is no colon. -/
def splitFirstColon : Str → Option (Str × Str)
  | [] => none
  | c :: rest =>
    if c = ':' then some ([], rest)
    else (splitFirstColon rest).map fun pr => (c :: pr.1, pr.2)

/-- The `confirmEdit` from app.go; `inputText` models `viewText(v)`, the text of
the edit modal. -/
def confirmEdit (inputText : Str) (a : App) : App :=
  if a.editing = false then a
  else
    let val := trimSpace inputText
    match splitFirstColon a.editTarget with
    | none => closeEdit a
    | some (pane, key) =>
      if pane = str (r"path") then closeEdit { a with pathVals := mset a.pathVals key val }
      else if pane = str (r"query") then
        closeEdit { a with queryVals := mset a.queryVals key val }
      else if pane = str (r"body") then
        closeEdit { a with bodyVals := mset a.bodyVals key val }
      else closeEdit a

def baseURLMissingMsg : Str :=
  str (r"base URL unknown (spec missing servers); set XHARK_BASE_URL, or load spec from an http(s) URL")

/-- The header merge of `executeRequest`: each credential header is written
into the built request's header map (`req.Headers[k] = v`), skipped
entirely when there are no auth headers. -/
def applyAuthHeaders (headers : Option Smap) (req : RequestSpec) : RequestSpec :=
  match headers with
  | none => req
  | some h =>
    if h.length > 0 then
      { req with headers := h.foldl (fun m e => mset m e.1 e.2) req.headers }
    else req

/-- The `executeRequest` from app.go; `net` models `httpclient.Execute`, the
synchronous bounded-timeout dispatch returning a result or a transport
error. -/
def executeRequest (net : RequestSpec → Except Str Result) (a : App) : App :=
  if a.scr ≠ .builder ∨ a.editing then a
  else if trimSpace a.baseURL = [] then { a with errorMsg := baseURLMissingMsg }
  else
    let headers := authHeadersForEndpoint a.authStore a.activeEndpoint
    match BuildRequest a.baseURL a.activeEndpoint a.pathVals a.queryVals a.bodyVals
        a.bodyRaw with
    | .error e => { a with errorMsg := e }
    | .ok req =>
      let req := applyAuthHeaders headers req
      match net req with
      | .error e => { a with errorMsg := e }
      | .ok res => { a with lastReq := req, lastRes := res, scr := .response, errorMsg := [] }

/-- The `rerun` from app.go (`renderResponse` is rendering-only). -/
def rerun (net : RequestSpec → Except Str Result) (a : App) : App :=
  if a.scr ≠ .response then a
  else if a.lastReq.url = [] then a
  else
    match net a.lastReq with
    | .error e => { a with errorMsg := e }
    | .ok res => { a with lastRes := res }

/-- The `submitAuth` from app.go; `now` models `time.Now()`, `fetchTok` models
`httpclient.FetchOAuthPasswordToken` (access token and token type, or an
error).  `strings.EqualFold(ss.Scheme, "bearer")` is modelled by comparing
lowercased strings. -/
def submitAuth (now : Nat)
    (fetchTok : Str → Str → Str → Str → Except Str (Str × Str)) (a : App) : App :=
  if a.authOpen = false then a
  else
    match mget a.secSchemes a.authActiveName with
    | none => a
    | some ss =>
      if ss.type = str (r"http") ∧ strToLower ss.scheme = strToLower (str (r"bearer")) then
        let tok := trimSpace a.authToken
        if tok = [] then
          { a with authStore := mdel a.authStore a.authActiveName, authEditing := false }
        else
          { a with
              authStore := mset a.authStore a.authActiveName
                { schemeName := a.authActiveName, token := tok,
                  tokenType := str (r"Bearer"), acquiredAt := now },
              authEditing := false, authError := [] }
      else if ss.type = str (r"oauth2") ∧ ss.tokenURL ≠ [] then
        match fetchTok ss.tokenURL a.authUsername a.authPassword a.authScope with
        | .error e => { a with authError := e }
        | .ok (accessToken, tokenType) =>
          let tt := if tokenType = [] then str (r"Bearer") else tokenType
          { a with
              authStore := mset a.authStore a.authActiveName
                { schemeName := a.authActiveName, token := accessToken,
                  tokenType := tt, acquiredAt := now },
              authEditing := false, authError := [] }
      else { a with authError := str (r"unsupported security scheme") }

/-- C5.  On the EndpointList screen with a non-empty filtered list,
`openBuilder` copies the chosen endpoint into the active endpoint, resets
the three value maps and the raw-body override to empty, resets the focus
pane to Path, clears the error message and moves to Builder; with an empty
filtered list it changes nothing.  Value maps are reset on *every* such
call, so re-opening an endpoint never sees earlier edits. -/
theorem openBuilder_spec (a : App) (hscr : a.scr = .endpoints) :
    (a.filtered ≠ [] →
      openBuilder a
        = { a with
              activeEndpoint := a.endpoints.getD (a.filtered.getD a.selected 0) default,
              pathVals := [], queryVals := [], bodyVals := [], bodyRaw := [],
              pane := .path, scr := .builder, errorMsg := [] })
    ∧ (a.filtered ≠ [] →
        (openBuilder a).pathVals = [] ∧ (openBuilder a).queryVals = []
          ∧ (openBuilder a).bodyVals = [] ∧ (openBuilder a).bodyRaw = [])
    ∧ (a.filtered = [] → openBuilder a = a) := by
  refine ⟨?_, ?_, ?_⟩
  · intro hne
    simp [openBuilder, hscr, hne]
  · intro hne
    simp [openBuilder, hscr, hne]
  · intro hemp
    simp [openBuilder, hscr, hemp]

/-- Witness for C5 at a concrete one-endpoint catalog. -/
theorem openBuilder_spec_witness :
    openBuilder
        { (default : App) with
            scr := .endpoints, endpoints := exampleCatalog, filtered := [1], selected := 0,
            pathVals := [(str (r"id"), str (r"7"))], errorMsg := str (r"stale") }
      = { (default : App) with
            scr := .builder, endpoints := exampleCatalog, filtered := [1], selected := 0,
            activeEndpoint := exampleCatalog.getD 1 default,
            pathVals := [], queryVals := [], bodyVals := [], bodyRaw := [],
            pane := .path, errorMsg := [] } := by
  have h := (openBuilder_spec
      { (default : App) with
          scr := .endpoints, endpoints := exampleCatalog, filtered := [1], selected := 0,
          pathVals := [(str (r"id"), str (r"7"))], errorMsg := str (r"stale") }
      rfl).1 (by decide)
  rw [h]
  rfl

/-- C4.  `executeRequest` on the Builder screen (not editing): a blank base
URL only sets the error message; a build error or a transport error only
sets the error message (screen, stored request/response and value maps
unchanged); on success it stores the sent request (credential headers
merged) and the result, clears the error message and moves to Response. -/
theorem executeRequest_spec (net : RequestSpec → Except Str Result) (a : App)
    (hscr : a.scr = .builder) (hed : a.editing = false) :
    (trimSpace a.baseURL = [] →
      executeRequest net a = { a with errorMsg := baseURLMissingMsg })
    ∧ (trimSpace a.baseURL ≠ [] → ∀ e,
        BuildRequest a.baseURL a.activeEndpoint a.pathVals a.queryVals a.bodyVals
            a.bodyRaw = .error e →
        executeRequest net a = { a with errorMsg := e })
    ∧ (trimSpace a.baseURL ≠ [] → ∀ req e,
        BuildRequest a.baseURL a.activeEndpoint a.pathVals a.queryVals a.bodyVals
            a.bodyRaw = .ok req →
        net (applyAuthHeaders (authHeadersForEndpoint a.authStore a.activeEndpoint) req)
            = .error e →
        executeRequest net a = { a with errorMsg := e })
    ∧ (trimSpace a.baseURL ≠ [] → ∀ req res,
        BuildRequest a.baseURL a.activeEndpoint a.pathVals a.queryVals a.bodyVals
            a.bodyRaw = .ok req →
        net (applyAuthHeaders (authHeadersForEndpoint a.authStore a.activeEndpoint) req)
            = .ok res →
        executeRequest net a
          = { a with
                lastReq := applyAuthHeaders
                  (authHeadersForEndpoint a.authStore a.activeEndpoint) req,
                lastRes := res, scr := .response, errorMsg := [] }) := by
  have hguard : ¬(a.scr ≠ Screen.builder ∨ a.editing = true) := by
    simp [hscr, hed]
  refine ⟨?_, ?_, ?_, ?_⟩
  · intro hbase
    unfold executeRequest
    rw [if_neg hguard, if_pos hbase]
  · intro hbase e hbuild
    unfold executeRequest
    rw [if_neg hguard, if_neg hbase, hbuild]
  · intro hbase req e hbuild hnet
    unfold executeRequest
    rw [if_neg hguard, if_neg hbase, hbuild]
    dsimp only
    rw [hnet]
  · intro hbase req res hbuild hnet
    unfold executeRequest
    rw [if_neg hguard, if_neg hbase, hbuild]
    dsimp only
    rw [hnet]

/-- Witness for C4 at the blank-base-URL case. -/
theorem executeRequest_spec_witness :
    executeRequest (fun _ => .error (str (r"down")))
        { (default : App) with scr := .builder, editing := false, baseURL := str (r"  ") }
      = { (default : App) with
            scr := .builder, editing := false, baseURL := str (r"  "),
            errorMsg := baseURLMissingMsg } := by
  have h := (executeRequest_spec (fun _ => .error (str (r"down")))
      { (default : App) with scr := .builder, editing := false, baseURL := str (r"  ") }
      rfl rfl).1 (by decide)
  rw [h]

/-- C9.  From the Response screen (with a stored request), `rerun`
dispatches exactly the stored last request — the outcome depends only on
the network's answer to `lastReq` — and on success updates only the stored
result, on failure updates only the error message, the session staying on
Response. -/
theorem rerun_spec (net net' : RequestSpec → Except Str Result) (a : App)
    (hscr : a.scr = .response) (hurl : a.lastReq.url ≠ []) :
    (∀ res, net a.lastReq = .ok res → rerun net a = { a with lastRes := res })
    ∧ (∀ e, net a.lastReq = .error e →
        rerun net a = { a with errorMsg := e } ∧ (rerun net a).scr = .response)
    ∧ (net a.lastReq = net' a.lastReq → rerun net a = rerun net' a) := by
  have hguard : ¬a.scr ≠ Screen.response := by simp [hscr]
  refine ⟨?_, ?_, ?_⟩
  · intro res hres
    unfold rerun
    rw [if_neg hguard, if_neg hurl, hres]
  · intro e herr
    unfold rerun
    rw [if_neg hguard, if_neg hurl, herr]
    exact ⟨rfl, by rw [hscr]⟩
  · intro hsame
    unfold rerun
    simp only [if_neg hguard, if_neg hurl]
    rw [hsame]

/-- Witness for C9: a failing network call only sets the error message. -/
theorem rerun_spec_witness :
    rerun (fun _ => .error (str (r"timeout")))
        { (default : App) with
            scr := .response, lastReq := { (default : RequestSpec) with url := str (r"u") } }
      = { (default : App) with
            scr := .response, lastReq := { (default : RequestSpec) with url := str (r"u") },
            errorMsg := str (r"timeout") } := by
  have h := ((rerun_spec (fun _ => .error (str (r"timeout")))
      (fun _ => .error (str (r"timeout")))
      { (default : App) with
          scr := .response, lastReq := { (default : RequestSpec) with url := str (r"u") } }
      rfl (by decide)).2.1 (str (r"timeout")) rfl).1
  rw [h]

/-- The bearer scheme of the auth examples. -/
def bearerScheme : SecurityScheme :=
  { name := str (r"bearerAuth"), type := str (r"http"), description := [],
    scheme := str (r"bearer"), bearerFormat := [], tokenURL := [], scopes := [] }

/-- An app state with the auth dialog open on `bearerAuth` and the token
field holding `" abc "` (whitespace around the token). -/
def authPadApp : App :=
  { (default : App) with
      authOpen := true, authEditing := true, authActiveName := str (r"bearerAuth"),
      authToken := str (r" abc "),
      secSchemes := [(str (r"bearerAuth"), bearerScheme)] }

/-- Counterexample to C8 as stated: `submitAuth` does **not** store the
token verbatim — the entered token `" abc "` is stored as the trimmed
`"abc"`. -/
theorem submitAuth_verbatim_counterexample :
    (mget (submitAuth 0 (fun _ _ _ _ => .error []) authPadApp).authStore
        (str (r"bearerAuth"))).map AuthState.token = some (str (r"abc"))
    ∧ str (r"abc") ≠ str (r" abc ") := by
  constructor
  · decide
  · decide

/-- Helper: the clearing branch of `submitAuth` for an http-bearer scheme
with a token that trims to empty. -/
theorem submitAuth_clear (now : Nat)
    (fetchTok : Str → Str → Str → Str → Except Str (Str × Str)) (a : App)
    (hopen : a.authOpen = true) (ss : SecurityScheme)
    (hss : mget a.secSchemes a.authActiveName = some ss)
    (htype : ss.type = str (r"http"))
    (hscheme : strToLower ss.scheme = strToLower (str (r"bearer")))
    (hemp : trimSpace a.authToken = []) :
    submitAuth now fetchTok a
      = { a with authStore := mdel a.authStore a.authActiveName,
                 authEditing := false } := by
  have hopen' : ¬a.authOpen = false := by simp [hopen]
  unfold submitAuth
  rw [if_neg hopen', hss]
  dsimp only
  rw [if_pos ⟨htype, hscheme⟩, if_pos hemp]

/-- C8 (amended).  For an http-bearer scheme, `submitAuth` stores the
**whitespace-trimmed** token with token type `"Bearer"` under the scheme's
name; a token that is empty after trimming instead deletes the scheme's
entry, and that clearing transition is idempotent. -/
theorem submitAuth_bearer_spec (now : Nat)
    (fetchTok : Str → Str → Str → Str → Except Str (Str × Str)) (a : App)
    (hopen : a.authOpen = true) (ss : SecurityScheme)
    (hss : mget a.secSchemes a.authActiveName = some ss)
    (htype : ss.type = str (r"http"))
    (hscheme : strToLower ss.scheme = strToLower (str (r"bearer"))) :
    (trimSpace a.authToken ≠ [] →
      (submitAuth now fetchTok a).authStore
        = mset a.authStore a.authActiveName
            { schemeName := a.authActiveName, token := trimSpace a.authToken,
              tokenType := str (r"Bearer"), acquiredAt := now })
    ∧ (trimSpace a.authToken = [] →
        (submitAuth now fetchTok a).authStore = mdel a.authStore a.authActiveName
        ∧ submitAuth now fetchTok (submitAuth now fetchTok a)
            = submitAuth now fetchTok a) := by
  have hopen' : ¬a.authOpen = false := by simp [hopen]
  have hcond : ss.type = str (r"http")
      ∧ strToLower ss.scheme = strToLower (str (r"bearer")) := ⟨htype, hscheme⟩
  constructor
  · intro hne
    unfold submitAuth
    rw [if_neg hopen', hss]
    dsimp only
    rw [if_pos hcond, if_neg hne]
  · intro hemp
    have h1 := submitAuth_clear now fetchTok a hopen ss hss htype hscheme hemp
    refine ⟨by rw [h1], ?_⟩
    have h2 := submitAuth_clear now fetchTok
      { a with authStore := mdel a.authStore a.authActiveName, authEditing := false }
      hopen ss hss htype hscheme hemp
    rw [h1, h2]
    simp [mdel_mdel]

/-- Witness for C8 (amended): a padded token is stored trimmed, and
clearing from an empty token field is idempotent. -/
theorem submitAuth_bearer_spec_witness :
    (submitAuth 0 (fun _ _ _ _ => .error []) authPadApp).authStore
      = mset authPadApp.authStore (str (r"bearerAuth"))
          { schemeName := str (r"bearerAuth"), token := trimSpace (str (r" abc ")),
            tokenType := str (r"Bearer"), acquiredAt := 0 } :=
  (submitAuth_bearer_spec 0 (fun _ _ _ _ => .error []) authPadApp rfl bearerScheme
      (by decide) rfl rfl).1 (by decide)

theorem splitFirstColon_prefix (pre k : Str) (hpre : ':' ∉ pre) :
    splitFirstColon (pre ++ ':' :: k) = some (pre, k) := by
  induction pre with
  | nil => simp [splitFirstColon]
  | cons c rest ih =>
    have hc : ¬c = ':' := fun h => hpre (h ▸ List.mem_cons_self c rest)
    have ih' := ih fun h => hpre (List.mem_cons_of_mem c h)
    simp [splitFirstColon, hc, ih']

theorem closeEdit_pathVals (a : App) : (closeEdit a).pathVals = a.pathVals := by
  unfold closeEdit
  by_cases h : a.editing = false
  · rw [if_pos h]
  · rw [if_neg h]

theorem closeEdit_queryVals (a : App) : (closeEdit a).queryVals = a.queryVals := by
  unfold closeEdit
  by_cases h : a.editing = false
  · rw [if_pos h]
  · rw [if_neg h]

theorem closeEdit_bodyVals (a : App) : (closeEdit a).bodyVals = a.bodyVals := by
  unfold closeEdit
  by_cases h : a.editing = false
  · rw [if_pos h]
  · rw [if_neg h]

/-- C6.  Confirming a field edit writes the trimmed input into the
corresponding value map under the field's key (an empty string is stored,
the key staying present); `BuildRequest` treats an empty-string value and
an absent key identically; a blank required query parameter or (when the
body is actually assembled) a blank required body field makes
`BuildRequest` reject; and the missing-required error messages occur only
for a genuinely blank required field. -/
theorem confirmEdit_buildRequest_required (a : App) (inputText k : Str)
    (base : Str) (ep : Endpoint) (pv qv bv : Smap) (raw : Str) :
    (a.editing = true → a.editTarget = str (r"path:") ++ k →
      (confirmEdit inputText a).pathVals = mset a.pathVals k (trimSpace inputText)
        ∧ mget (confirmEdit inputText a).pathVals k = some (trimSpace inputText))
    ∧ (a.editing = true → a.editTarget = str (r"query:") ++ k →
      (confirmEdit inputText a).queryVals = mset a.queryVals k (trimSpace inputText)
        ∧ mget (confirmEdit inputText a).queryVals k = some (trimSpace inputText))
    ∧ (a.editing = true → a.editTarget = str (r"body:") ++ k →
      (confirmEdit inputText a).bodyVals = mset a.bodyVals k (trimSpace inputText)
        ∧ mget (confirmEdit inputText a).bodyVals k = some (trimSpace inputText))
    ∧ BuildRequest base ep pv (mset qv k []) bv raw
        = BuildRequest base ep pv (mdel qv k) bv raw
    ∧ BuildRequest base ep pv qv (mset bv k []) raw
        = BuildRequest base ep pv qv (mdel bv k) raw
    ∧ (∀ p ∈ ep.queryParams, p.required = true → trimSpace (mgetD qv p.name) = [] →
        ∃ e, BuildRequest base ep pv qv bv raw = .error e)
    ∧ (∀ bs, shouldSendBody ep = true → trimSpace raw = [] → ep.body = some bs →
        bs.supported = true → ∀ f ∈ bs.fields, f.required = true →
        trimSpace (mgetD bv f.name) = [] →
        ∃ e, BuildRequest base ep pv qv bv raw = .error e)
    ∧ (∀ n, BuildRequest base ep pv qv bv raw = .error (msgMissingQueryParam n) →
        ∃ p ∈ ep.queryParams, p.name = n ∧ p.required = true
          ∧ trimSpace (mgetD qv p.name) = [])
    ∧ (∀ n, BuildRequest base ep pv qv bv raw = .error (msgMissingBodyField n) →
        ∃ bs, ep.body = some bs ∧ ∃ f ∈ bs.fields, f.name = n ∧ f.required = true
          ∧ trimSpace (mgetD bv f.name) = []) := by
  refine ⟨?_, ?_, ?_, ?_, ?_, ?_, ?_, ?_, ?_⟩
  · intro hed htgt
    unfold confirmEdit
    rw [if_neg (by simp [hed]), htgt,
      show str (r"path:") ++ k = str (r"path") ++ ':' :: k from rfl,
      splitFirstColon_prefix (str (r"path")) k (by decide)]
    dsimp only
    rw [if_pos rfl]
    constructor
    · rw [closeEdit_pathVals]
    · rw [closeEdit_pathVals]
      exact mget_mset_self a.pathVals k (trimSpace inputText)
  · intro hed htgt
    unfold confirmEdit
    rw [if_neg (by simp [hed]), htgt,
      show str (r"query:") ++ k = str (r"query") ++ ':' :: k from rfl,
      splitFirstColon_prefix (str (r"query")) k (by decide)]
    dsimp only
    rw [if_neg (by decide), if_pos rfl]
    constructor
    · rw [closeEdit_queryVals]
    · rw [closeEdit_queryVals]
      exact mget_mset_self a.queryVals k (trimSpace inputText)
  · intro hed htgt
    unfold confirmEdit
    rw [if_neg (by simp [hed]), htgt,
      show str (r"body:") ++ k = str (r"body") ++ ':' :: k from rfl,
      splitFirstColon_prefix (str (r"body")) k (by decide)]
    dsimp only
    rw [if_neg (by decide), if_neg (by decide), if_pos rfl]
    constructor
    · rw [closeEdit_bodyVals]
    · rw [closeEdit_bodyVals]
      exact mget_mset_self a.bodyVals k (trimSpace inputText)
  · exact BuildRequest_congr_query base ep pv bv (mset qv k []) (mdel qv k) raw
      (mgetD_mset_empty_eq_mdel qv k)
  · exact BuildRequest_congr_body base ep pv qv (mset bv k []) (mdel bv k) raw
      (mgetD_mset_empty_eq_mdel bv k)
  · intro p hp hreq he
    exact BuildRequest_error_of_missing_query base ep pv qv bv raw p hp hreq he
  · intro bs hsend hraw hb hsupp f hf hreq he
    exact BuildRequest_error_of_missing_body base ep pv qv bv raw bs hsend hraw hb hsupp
      f hf hreq he
  · intro n h
    exact BuildRequest_missing_query_msg base ep pv qv bv raw n h
  · intro n h
    exact BuildRequest_missing_body_msg base ep pv qv bv raw n h

/-- An app state mid-edit, targeting query parameter `limit`. -/
def editApp : App :=
  { (default : App) with
      scr := .builder, editing := true, editTarget := str (r"query:limit") }

/-- Witness for C6: confirming the edit text `"  5 "` stores the trimmed
`"5"` under `limit`, the key present in the map. -/
theorem confirmEdit_buildRequest_required_witness :
    (confirmEdit (str (r"  5 ")) editApp).queryVals
        = mset editApp.queryVals (str (r"limit")) (trimSpace (str (r"  5 ")))
      ∧ mget (confirmEdit (str (r"  5 ")) editApp).queryVals (str (r"limit"))
        = some (trimSpace (str (r"  5 "))) :=
  (confirmEdit_buildRequest_required editApp (str (r"  5 ")) (str (r"limit"))
      [] default [] [] [] []).2.1 rfl (by decide)

end Xhark
